import Mathlib

/-! vsnd: the software clock of a virtual sound card

A shallow embedding of the position tracking engine of `vsnd.c`
(`vsnd_timer_set`, `byte_pos_calc`, `vsnd_pos_calc`, `vsnd_pos_update`,
`vsnd_timer_elapsed`, `vsnd_prepare`, `vsnd_trigger`, `vsnd_pointer`, ...).

Conventions of the embedding

* `unsigned int` values are natural numbers below `4294967296` (2^32); every
  C operation that can wrap is followed by `% 4294967296`, and an unsigned
  subtraction `a - b` is `(a + 4294967296 - b) % 4294967296`.
* `unsigned long` (`jiffies`, `last_jiffies`, `timer.expires`) is 64 bits wide:
  values below `18446744073709551616` (2^64).
* `int` values are integers; `to_int` is the conversion from `unsigned int`.
* A division or remainder by zero is the fault `Fault.div_by_zero`.
* `HZ`, the sink (`kernel_write`) and the current `jiffies` are inputs.
* Locks are not modelled: every operation is one atomic step.
-/

namespace Vsnd

/-- The ways in which a step of the driver can fail to return. -/
inductive Fault where
  | div_by_zero
  | loop_bound
  deriving DecidableEq, Repr

/-- Conversion of a 32-bit unsigned value to `int` (two's complement). -/
def to_int (x : Nat) : Int :=
  if x % 4294967296 < 2147483648 then ((x % 4294967296 : Nat) : Int)
  else ((x % 4294967296 : Nat) : Int) - 4294967296

/-- Conversion of an `int` to `unsigned int`. -/
def to_uint (i : Int) : Nat := (i % 4294967296).toNat

/-- The errno value `EINVAL`. -/
def EINVAL : Int := 22

/-- Kernel constant `BITS_PER_BYTE` (defined at the top of `vsnd.c`). -/
def BITS_PER_BYTE : Nat := 8

/-- Trigger command `SNDRV_PCM_TRIGGER_STOP` of the ALSA headers. -/
def SNDRV_PCM_TRIGGER_STOP : Int := 0
/-- Trigger command `SNDRV_PCM_TRIGGER_START` of the ALSA headers. -/
def SNDRV_PCM_TRIGGER_START : Int := 1
/-- Trigger command `SNDRV_PCM_TRIGGER_PAUSE_PUSH` of the ALSA headers. -/
def SNDRV_PCM_TRIGGER_PAUSE_PUSH : Int := 3
/-- Trigger command `SNDRV_PCM_TRIGGER_PAUSE_RELEASE` of the ALSA headers. -/
def SNDRV_PCM_TRIGGER_PAUSE_RELEASE : Int := 4
/-- Trigger command `SNDRV_PCM_TRIGGER_SUSPEND` of the ALSA headers. -/
def SNDRV_PCM_TRIGGER_SUSPEND : Int := 5
/-- Trigger command `SNDRV_PCM_TRIGGER_RESUME` of the ALSA headers. -/
def SNDRV_PCM_TRIGGER_RESUME : Int := 6

/-- The kernel timer embedded in `struct vsnd_pcm`: whether it is armed
(`pending`) and the jiffies value at which it expires. -/
structure timer_list where
  pending : Bool
  expires : Nat
  deriving DecidableEq, Repr

/-- The fields of `struct vsnd` the clock uses: the sink handle (`none` is
`NULL`) and the two one-bit flags. -/
structure vsnd where
  fifo_fp : Option Nat
  running : Bool
  paused : Bool
  deriving DecidableEq, Repr

/-- The numeric fields of `struct vsnd_pcm` and its timer. -/
structure vsnd_pcm where
  pcm_buffer_size : Nat
  buf_pos : Nat
  silent_size : Nat
  pcm_period_size : Nat
  pcm_bps : Nat
  pcm_salign : Nat
  period_update_pending : Bool
  irq_pos : Nat
  period_size_frac : Nat
  last_drift : Nat
  last_jiffies : Nat
  timer : timer_list
  deriving DecidableEq, Repr

/-- One open stream together with its device (`pcm_data` and
`pcm_data->vsnd`). -/
structure State where
  vsnd : vsnd
  pcm : vsnd_pcm
  deriving DecidableEq, Repr

/-- The fields of `struct snd_pcm_runtime` read by the driver.
`physical_width` is the value of
`snd_pcm_format_physical_width(runtime->format)`; `buffer_size` and
`period_size` are in frames. -/
structure snd_pcm_runtime where
  physical_width : Int
  channels : Nat
  rate : Nat
  buffer_size : Nat
  period_size : Nat
  frame_bits : Nat
  deriving DecidableEq, Repr

/-- One call of `kernel_write(vsnd->fifo_fp, src_data + off, size, NULL)`
together with the value the sink returned. -/
structure kwrite where
  fp : Option Nat
  off : Nat
  size : Nat
  ret : Int
  deriving DecidableEq, Repr

/-- What one timer callback does to the outside world: the sink writes and
whether `snd_pcm_period_elapsed` was called. -/
structure TickOut where
  writes : List kwrite
  period_elapsed : Bool
  deriving DecidableEq, Repr

/-- The environment of the driver: the tick rate `HZ` and the sink.
`kernel_write now k fp off size` is what the `k`-th write of the callback
running at jiffies `now` returns. -/
structure Env where
  HZ : Nat
  kernel_write : Nat → Nat → Option Nat → Nat → Nat → Int

/-- Kernel helper `frames_to_bytes` of `sound/pcm.h`:
`size * runtime->frame_bits / 8`. -/
def frames_to_bytes (runtime : snd_pcm_runtime) (size : Nat) : Nat :=
  size * runtime.frame_bits / 8

/-- Kernel helper `bytes_to_frames` of `sound/pcm.h`:
`size * 8 / runtime->frame_bits`. -/
def bytes_to_frames (runtime : snd_pcm_runtime) (size : Nat) : Except Fault Nat :=
  if runtime.frame_bits = 0 then .error .div_by_zero
  else .ok (size * 8 / runtime.frame_bits)

/-- Kernel helper `DIV_ROUND_UP(n, d)`, `((n) + (d) - 1) / (d)`, on
`unsigned long`. -/
def DIV_ROUND_UP (n d : Nat) : Except Fault Nat :=
  if d = 0 then .error .div_by_zero
  else .ok (((n + d - 1) % 18446744073709551616) / d)

/-- Kernel helper `mod_timer`: arm the timer for `expires`. -/
def mod_timer (_t : timer_list) (expires : Nat) : timer_list :=
  { pending := true, expires := expires }

/-- `vsnd_timer_set` (vsnd.c 161-175). -/
def vsnd_timer_set (HZ jiffies : Nat) (pcm_data : vsnd_pcm) : Except Fault vsnd_pcm :=
  let p1 : vsnd_pcm :=
    { pcm_data with period_size_frac := (pcm_data.pcm_period_size * HZ) % 4294967296 }
  if p1.period_size_frac ≤ p1.irq_pos ∧ p1.period_size_frac = 0 then .error .div_by_zero
  else
    let p2 : vsnd_pcm :=
      if p1.period_size_frac ≤ p1.irq_pos then
        { p1 with irq_pos := p1.irq_pos % p1.period_size_frac, period_update_pending := true }
      else p1
    let tick := (p2.period_size_frac + 4294967296 - p2.irq_pos) % 4294967296
    match DIV_ROUND_UP tick p2.pcm_bps with
    | .error f => .error f
    | .ok tick => .ok { p2 with timer := mod_timer p2.timer ((jiffies + tick) % 18446744073709551616) }

/-- `byte_pos_calc` (vsnd.c 177-182). -/
def byte_pos_calc (HZ : Nat) (pcm_data : vsnd_pcm) (x : Nat) : Except Fault Nat :=
  if HZ = 0 then .error .div_by_zero
  else
    let x := x / HZ
    if pcm_data.pcm_salign = 0 then .error .div_by_zero
    else .ok (x - x % pcm_data.pcm_salign)

/-- `vsnd_pos_calc` (vsnd.c 184-202): the new stream fields and the returned
byte count. -/
def vsnd_pos_calc (HZ : Nat) (pcm_data : vsnd_pcm) (delta : Nat) : Except Fault (vsnd_pcm × Nat) :=
  match byte_pos_calc HZ pcm_data pcm_data.irq_pos with
  | .error f => .error f
  | .ok last_pos =>
    let p1 : vsnd_pcm :=
      { pcm_data with
        irq_pos := (pcm_data.irq_pos + (delta * pcm_data.pcm_bps) % 4294967296) % 4294967296 }
    match byte_pos_calc HZ p1 p1.irq_pos with
    | .error f => .error f
    | .ok cur =>
      let delta := (cur + 4294967296 - last_pos) % 4294967296
      let delta := if delta ≥ p1.last_drift then delta - p1.last_drift else delta
      let p2 : vsnd_pcm := { p1 with last_drift := 0 }
      if p2.irq_pos ≥ p2.period_size_frac then
        if p2.period_size_frac = 0 then .error .div_by_zero
        else .ok ({ p2 with irq_pos := p2.irq_pos % p2.period_size_frac,
                            period_update_pending := true }, delta)
      else .ok (p2, delta)

/-- The `do ... while (byte_left_to_write > 0)` loop of `vsnd_pos_update`
(vsnd.c 223-230), with a bound on the number of iterations. It returns the
sink writes in order. -/
def drain_loop (kw : Nat → Option Nat → Nat → Nat → Int) (fp : Option Nat) (buffer_size : Nat) :
    Nat → Nat → Nat → List kwrite → Except Fault (List kwrite)
  | 0, _, _, _ => .error .loop_bound
  | fuel + 1, byte_left_to_write, src_off, log =>
    let size :=
      if (src_off + byte_left_to_write) % 4294967296 > buffer_size then
        (buffer_size + 4294967296 - src_off) % 4294967296
      else byte_left_to_write
    let log := log ++ [{ fp := fp, off := src_off, size := size,
                         ret := kw log.length fp src_off size }]
    let byte_left_to_write := (byte_left_to_write + 4294967296 - size) % 4294967296
    if buffer_size = 0 then .error .div_by_zero
    else
      let src_off := ((src_off + size) % 4294967296) % buffer_size
      if byte_left_to_write > 0 then
        drain_loop kw fp buffer_size fuel byte_left_to_write src_off log
      else .ok log

/-- `vsnd_pos_update` (vsnd.c 204-237): the new state, the returned `running`
and the sink writes. The loop bound `4294967296 / pcm_buffer_size + 3` is
never reached (see `drain_loop_total`). -/
def vsnd_pos_update (K : Env) (jiffies : Nat) (s : State) :
    Except Fault (State × Bool × List kwrite) :=
  let running := xor s.vsnd.running s.vsnd.paused
  let src_off := s.pcm.buf_pos
  let delta :=
    if running then
      ((jiffies + 18446744073709551616 - s.pcm.last_jiffies) % 18446744073709551616) % 4294967296
    else 0
  let p1 : vsnd_pcm :=
    if running then
      { s.pcm with last_jiffies := (s.pcm.last_jiffies + delta) % 18446744073709551616 }
    else s.pcm
  if delta = 0 then .ok ({ s with pcm := p1 }, running, [])
  else
    match vsnd_pos_calc K.HZ p1 delta with
    | .error f => .error f
    | .ok (p2, bytes_to_write) =>
      match drain_loop (K.kernel_write jiffies) s.vsnd.fifo_fp p2.pcm_buffer_size
              (4294967296 / p2.pcm_buffer_size + 3) bytes_to_write src_off [] with
      | .error f => .error f
      | .ok log =>
        if p2.pcm_buffer_size = 0 then .error .div_by_zero
        else
          .ok ({ s with
                 pcm := { p2 with
                          buf_pos := ((p2.buf_pos + bytes_to_write) % 4294967296)
                                       % p2.pcm_buffer_size } },
               running, log)

/-- `vsnd_timer_elapsed` (vsnd.c 239-259), the timer callback. -/
def vsnd_timer_elapsed (K : Env) (jiffies : Nat) (s : State) : Except Fault (State × TickOut) :=
  match vsnd_pos_update K jiffies s with
  | .error f => .error f
  | .ok (s1, running, w) =>
    if running then
      match vsnd_timer_set K.HZ jiffies s1.pcm with
      | .error f => .error f
      | .ok p =>
        if p.period_update_pending then
          .ok ({ s1 with pcm := { p with period_update_pending := false } },
               { writes := w, period_elapsed := true })
        else .ok ({ s1 with pcm := p }, { writes := w, period_elapsed := false })
    else .ok (s1, { writes := w, period_elapsed := false })

/-- `vsnd_timer_delete` (vsnd.c 261-269). -/
def vsnd_timer_delete (pcm_data : vsnd_pcm) (sync : Bool) : vsnd_pcm :=
  if sync then { pcm_data with timer := { pcm_data.timer with pending := false } }
  else { pcm_data with timer := { pending := false, expires := 0 } }

/-- The `salign` local of `vsnd_prepare`: the product is an `unsigned int`
product, the quotient is converted to `int`. -/
def prepare_salign (runtime : snd_pcm_runtime) : Int :=
  to_int (((to_uint runtime.physical_width * runtime.channels) % 4294967296) / BITS_PER_BYTE)

/-- The `bits_per_secs` local of `vsnd_prepare`. -/
def prepare_bits_per_secs (runtime : snd_pcm_runtime) : Int :=
  to_int ((to_uint (prepare_salign runtime) * runtime.rate) % 4294967296)

/-- `vsnd_prepare` (vsnd.c 403-432): the new state and the returned `err`. -/
def vsnd_prepare (runtime : snd_pcm_runtime) (s : State) : State × Int :=
  let p0 := vsnd_timer_delete s.pcm true
  let salign := prepare_salign runtime
  let bits_per_secs := prepare_bits_per_secs runtime
  if salign ≤ 0 ∨ bits_per_secs ≤ 0 then ({ s with pcm := p0 }, -EINVAL)
  else
    ({ s with
       pcm := { p0 with
                buf_pos := 0
                pcm_buffer_size := frames_to_bytes runtime runtime.buffer_size % 4294967296
                irq_pos := 0
                period_update_pending := false
                pcm_bps := to_uint bits_per_secs
                pcm_salign := to_uint salign
                pcm_period_size := frames_to_bytes runtime runtime.period_size % 4294967296 } },
     0)

/-- `vsnd_trigger` (vsnd.c 434-486): the new state and the returned `err`. -/
def vsnd_trigger (K : Env) (jiffies : Nat) (cmd : Int) (s : State) : Except Fault (State × Int) :=
  if cmd = SNDRV_PCM_TRIGGER_START then
    let p1 : vsnd_pcm := { s.pcm with last_jiffies := jiffies, last_drift := 0 }
    match vsnd_timer_set K.HZ jiffies p1 with
    | .error f => .error f
    | .ok p2 => .ok ({ vsnd := { s.vsnd with running := true, paused := false }, pcm := p2 }, 0)
  else if cmd = SNDRV_PCM_TRIGGER_STOP then
    .ok ({ vsnd := { s.vsnd with running := false, paused := false },
           pcm := vsnd_timer_delete s.pcm false }, 0)
  else if cmd = SNDRV_PCM_TRIGGER_PAUSE_PUSH ∨ cmd = SNDRV_PCM_TRIGGER_SUSPEND then
    .ok ({ vsnd := { s.vsnd with paused := true },
           pcm := vsnd_timer_delete s.pcm false }, 0)
  else if cmd = SNDRV_PCM_TRIGGER_PAUSE_RELEASE ∨ cmd = SNDRV_PCM_TRIGGER_RESUME then
    let p1 : vsnd_pcm := { s.pcm with last_jiffies := jiffies }
    match vsnd_timer_set K.HZ jiffies p1 with
    | .error f => .error f
    | .ok p2 => .ok ({ vsnd := { s.vsnd with paused := false }, pcm := p2 }, 0)
  else .ok (s, -EINVAL)

/-- `vsnd_pointer` (vsnd.c 488-499). -/
def vsnd_pointer (runtime : snd_pcm_runtime) (s : State) : Except Fault Nat :=
  bytes_to_frames runtime s.pcm.buf_pos

/-- The stream fields after `kzalloc` and `timer_setup` in `vsnd_open`. -/
def pcm_zero : vsnd_pcm :=
  { pcm_buffer_size := 0, buf_pos := 0, silent_size := 0, pcm_period_size := 0, pcm_bps := 0,
    pcm_salign := 0, period_update_pending := false, irq_pos := 0, period_size_frac := 0,
    last_drift := 0, last_jiffies := 0, timer := { pending := false, expires := 0 } }

/-- The success path of `vsnd_open` (vsnd.c 326-379) on device `dev`, when
`filp_open` returned the handle `fifo_fp`. -/
def vsnd_open (dev : vsnd) (fifo_fp : Nat) : State :=
  { vsnd := { dev with fifo_fp := some fifo_fp }, pcm := pcm_zero }

/-- Ticks given by their elapsed counts: each callback runs when `jiffies`
is `last_jiffies + e`. It returns the final state and what each callback
did. -/
def run_elapsed (K : Env) : State → List Nat → Except Fault (State × List TickOut)
  | s, [] => .ok (s, [])
  | s, e :: es =>
    match vsnd_timer_elapsed K ((s.pcm.last_jiffies + e) % 18446744073709551616) s with
    | .error f => .error f
    | .ok (s1, o) =>
      match run_elapsed K s1 es with
      | .error f => .error f
      | .ok (s2, os) => .ok (s2, o :: os)

/-- Bytes handed to the sink by one callback. -/
def TickOut.bytes (o : TickOut) : Nat := (o.writes.map kwrite.size).sum

/-- Bytes handed to the sink by a sequence of callbacks. -/
def drained (os : List TickOut) : Nat := (os.map TickOut.bytes).sum

/-- Number of `snd_pcm_period_elapsed` calls in a sequence of callbacks. -/
def notifications (os : List TickOut) : Nat := (os.filter TickOut.period_elapsed).length

/-- A sink that accepts every write completely. -/
def kw_full : Nat → Nat → Option Nat → Nat → Nat → Int := fun _ _ _ _ size => (size : Int)

/-- A sink that fails every write with `-EAGAIN`. -/
def kw_fail : Nat → Nat → Option Nat → Nat → Nat → Int := fun _ _ _ _ _ => -11

/-- The parameters of the default stream: S16_LE, mono, 22050 Hz. -/
def rt_default (buffer_frames period_frames : Nat) : snd_pcm_runtime :=
  { physical_width := 16, channels := 1, rate := 22050, buffer_size := buffer_frames,
    period_size := period_frames, frame_bits := 16 }

/-- The device after `vsnd_probe`. -/
def dev_probe : vsnd := { fifo_fp := none, running := false, paused := false }

deriving instance DecidableEq for Except

/-- `x` rounded down to a multiple of `a`. -/
def align_down (a x : Nat) : Nat := x - x % a

/-- The byte position of a scaled position `x`. -/
def byte_pos (HZ a x : Nat) : Nat := align_down a (x / HZ)

/-- Total size of a list of sink writes. -/
def log_bytes (log : List kwrite) : Nat := (log.map kwrite.size).sum

/-- The invariant of a prepared and started stream. -/
structure ClockInv (K : Env) (s : State) : Prop where
  hz : K.HZ ≠ 0
  salign : s.pcm.pcm_salign ≠ 0
  bps : s.pcm.pcm_bps ≠ 0
  frac : s.pcm.period_size_frac = (s.pcm.pcm_period_size * K.HZ) % 4294967296
  irq : s.pcm.irq_pos < s.pcm.period_size_frac
  drift : s.pcm.last_drift = 0
  pending : s.pcm.period_update_pending = false
  jiffies : s.pcm.last_jiffies < 18446744073709551616
  buf32 : s.pcm.pcm_buffer_size < 4294967296
  buf : s.pcm.pcm_buffer_size ≠ 0 → s.pcm.buf_pos < s.pcm.pcm_buffer_size

/-- The geometry set by prepare is the same in both states. -/
def same_geometry (s s' : State) : Prop :=
  s'.pcm.pcm_buffer_size = s.pcm.pcm_buffer_size ∧
  s'.pcm.pcm_period_size = s.pcm.pcm_period_size ∧
  s'.pcm.pcm_bps = s.pcm.pcm_bps ∧
  s'.pcm.pcm_salign = s.pcm.pcm_salign

/-- The elapsed tick count `vsnd_pos_update` computes at `jiffies`. -/
def elapsed_ticks (jiffies : Nat) (s : State) : Nat :=
  ((jiffies + 18446744073709551616 - s.pcm.last_jiffies) % 18446744073709551616) % 4294967296

/-- States reached from a successful `vsnd_prepare` with parameters `runtime`
through trigger commands and timer callbacks. -/
inductive Prepared (K : Env) (runtime : snd_pcm_runtime) : State → Prop where
  | prepare {s0 s1 : State} : vsnd_prepare runtime s0 = (s1, 0) → Prepared K runtime s1
  | trigger {s s' : State} {now : Nat} {cmd r : Int} : Prepared K runtime s →
      now < 18446744073709551616 → vsnd_trigger K now cmd s = .ok (s', r) →
      Prepared K runtime s'
  | tick {s s' : State} {now : Nat} {o : TickOut} : Prepared K runtime s →
      now < 18446744073709551616 → vsnd_timer_elapsed K now s = .ok (s', o) →
      Prepared K runtime s'

/-- States reached from a successful `vsnd_prepare` followed by a successful
Start, through trigger commands and timer callbacks. -/
inductive Started (K : Env) : State → Prop where
  | start {runtime : snd_pcm_runtime} {s0 s1 s2 : State} {now : Nat} :
      vsnd_prepare runtime s0 = (s1, 0) → now < 18446744073709551616 →
      vsnd_trigger K now SNDRV_PCM_TRIGGER_START s1 = .ok (s2, 0) → Started K s2
  | trigger {s s' : State} {now : Nat} {cmd r : Int} : Started K s →
      now < 18446744073709551616 → vsnd_trigger K now cmd s = .ok (s', r) → Started K s'
  | tick {s s' : State} {now : Nat} {o : TickOut} : Started K s →
      now < 18446744073709551616 → vsnd_timer_elapsed K now s = .ok (s', o) → Started K s'

/-- No callback of the sequence wraps the 32-bit scaled position:
`irq_pos + e * pcm_bps < 2^32` at every tick, `irq` being the scaled
position before the first one. -/
def no_wrap (frac bps : Nat) : Nat → List Nat → Bool
  | _, [] => true
  | irq, e :: es =>
    decide (irq + e * bps < 4294967296) && no_wrap frac bps ((irq + e * bps) % frac) es

/-- No callback of the sequence advances the scaled position past the second
period boundary: `irq_pos + e * pcm_bps < 2 * period_size_frac` at every
tick. -/
def single_period (frac bps : Nat) : Nat → List Nat → Bool
  | _, [] => true
  | irq, e :: es =>
    decide (irq + e * bps < 2 * frac) && single_period frac bps ((irq + e * bps) % frac) es

/-- An environment with `HZ = 1000` and a sink that accepts everything. -/
def K1000 : Env := { HZ := 1000, kernel_write := kw_full }

/-- A freshly opened stream on a probed device. -/
def s_opened : State := vsnd_open dev_probe 7

/-- The stream `s_opened` after `vsnd_prepare` with 2048 buffer frames and
512 period frames of S16 mono at 22050 Hz: 4096 and 1024 bytes. -/
def s_prepared : State :=
  { vsnd := { fifo_fp := some 7, running := false, paused := false },
    pcm := { pcm_zero with pcm_buffer_size := 4096, pcm_period_size := 1024,
                           pcm_bps := 44100, pcm_salign := 2 } }

/-- The stream `s_prepared` after Start at jiffies 5000 under `K1000`. -/
def s_started : State :=
  { vsnd := { fifo_fp := some 7, running := true, paused := false },
    pcm := { s_prepared.pcm with period_size_frac := 1024000, last_jiffies := 5000,
                                 timer := { pending := true, expires := 5024 } } }

/-- The stream `s_opened` after `vsnd_prepare` with 4096 buffer frames and
1024 period frames of S16 mono at 22050 Hz: 8192 and 2048 bytes. -/
def s_prepared_8192 : State :=
  { vsnd := { fifo_fp := some 7, running := false, paused := false },
    pcm := { pcm_zero with pcm_buffer_size := 8192, pcm_period_size := 2048,
                           pcm_bps := 44100, pcm_salign := 2 } }

/-- The stream `s_prepared_8192` after Start at jiffies 5000 under `K1000`. -/
def s_started_8192 : State :=
  { vsnd := { fifo_fp := some 7, running := true, paused := false },
    pcm := { s_prepared_8192.pcm with period_size_frac := 2048000, last_jiffies := 5000,
                                      timer := { pending := true, expires := 5047 } } }

/-- The stream `s_started` after one callback 19 ticks after Start. -/
def s_after19 : State :=
  { s_started with
    pcm := { s_started.pcm with buf_pos := 836, irq_pos := 837900, last_jiffies := 5019 } }

/-- The stream `s_after19` after Stop. -/
def s_stopped19 : State :=
  { vsnd := { fifo_fp := some 7, running := false, paused := false },
    pcm := { s_after19.pcm with timer := { pending := false, expires := 0 } } }

/-- The stream `s_stopped19` after Start at jiffies 6000. -/
def s_restarted : State :=
  { vsnd := { fifo_fp := some 7, running := true, paused := false },
    pcm := { s_after19.pcm with last_jiffies := 6000,
                                timer := { pending := true, expires := 6005 } } }

/-- The stream `s_started` after Stop (no callback has run yet). -/
def s_stopped : State :=
  { vsnd := { fifo_fp := some 7, running := false, paused := false },
    pcm := { s_started.pcm with timer := { pending := false, expires := 0 } } }

/-- The stream `s_stopped` after a Pause command: `running = 0`, `paused = 1`. -/
def s_stop_paused : State :=
  { s_stopped with vsnd := { fifo_fp := some 7, running := false, paused := true } }

/-- The stream `s_opened` after `vsnd_prepare` with 0 buffer frames. -/
def s_prepared_no_buffer : State :=
  { vsnd := { fifo_fp := some 7, running := false, paused := false },
    pcm := { pcm_zero with pcm_buffer_size := 0, pcm_period_size := 1024,
                           pcm_bps := 44100, pcm_salign := 2 } }

/-- States reached from `vsnd_open` (a zeroed stream on any device) through
prepare, trigger commands and timer callbacks. -/
inductive Reach (K : Env) : State → Prop where
  | opened (dev : vsnd) (fifo_fp : Nat) : Reach K (vsnd_open dev fifo_fp)
  | prepare {s : State} (runtime : snd_pcm_runtime) : Reach K s →
      Reach K (vsnd_prepare runtime s).1
  | trigger {s s' : State} {now : Nat} {cmd r : Int} : Reach K s →
      now < 18446744073709551616 → vsnd_trigger K now cmd s = .ok (s', r) → Reach K s'
  | tick {s s' : State} {now : Nat} {o : TickOut} : Reach K s →
      now < 18446744073709551616 → vsnd_timer_elapsed K now s = .ok (s', o) → Reach K s'

/-- `vsnd_close` (vsnd.c 381-396): the new state and the returned value. -/
def vsnd_close (s : State) : State × Int :=
  let p := vsnd_timer_delete s.pcm true
  if s.vsnd.fifo_fp.isSome then ({ vsnd := { s.vsnd with fifo_fp := none }, pcm := p }, 0)
  else ({ vsnd := s.vsnd, pcm := p }, 0)

/-- The stream fields after prepare with a period of `2^29` bytes. -/
def pcm_huge_period : vsnd_pcm := { s_prepared.pcm with pcm_period_size := 536870912 }

/-- Stream parameters with a sample alignment of 3: 24-bit mono at 22050 Hz. -/
def rt_s24 : snd_pcm_runtime :=
  { physical_width := 24, channels := 1, rate := 22050, buffer_size := 2048,
    period_size := 512, frame_bits := 24 }

/-- The stream `s_opened` after `vsnd_prepare` with `rt_s24`: 6144 and 1536
bytes, alignment 3, 66150 bytes per second. -/
def s_prepared_s24 : State :=
  { vsnd := { fifo_fp := some 7, running := false, paused := false },
    pcm := { pcm_zero with pcm_buffer_size := 6144, pcm_period_size := 1536,
                           pcm_bps := 66150, pcm_salign := 3 } }

/-- The stream `s_prepared_s24` after Start at jiffies 5000 under `K1000`. -/
def s_started_s24 : State :=
  { vsnd := { fifo_fp := some 7, running := true, paused := false },
    pcm := { s_prepared_s24.pcm with period_size_frac := 1536000, last_jiffies := 5000,
                                     timer := { pending := true, expires := 5024 } } }

/-- The stream `s_started_s24` after one callback 10 ticks after Start. -/
def s_after10_s24 : State :=
  { s_started_s24 with
    pcm := { s_started_s24.pcm with buf_pos := 660, irq_pos := 661500, last_jiffies := 5010 } }

theorem align_down_eq (a x : Nat) : align_down a x = a * (x / a) := by
  unfold align_down
  have := Nat.div_add_mod x a
  omega

theorem align_down_mono (a : Nat) {x y : Nat} (h : x ≤ y) : align_down a x ≤ align_down a y := by
  rw [align_down_eq, align_down_eq]
  exact Nat.mul_le_mul_left a (Nat.div_le_div_right h)

theorem byte_pos_mono (HZ a : Nat) {x y : Nat} (h : x ≤ y) : byte_pos HZ a x ≤ byte_pos HZ a y :=
  align_down_mono a (Nat.div_le_div_right h)

theorem byte_pos_le (HZ a x : Nat) : byte_pos HZ a x ≤ x / HZ := by
  unfold byte_pos align_down
  exact Nat.sub_le _ _

theorem byte_pos_shift {HZ a P : Nat} (hHZ : 0 < HZ) (ha : a ∣ P) (q r : Nat) :
    byte_pos HZ a (q * (P * HZ) + r) = q * P + byte_pos HZ a r := by
  obtain ⟨c, rfl⟩ := ha
  unfold byte_pos align_down
  have h1 : (q * (a * c * HZ) + r) / HZ = r / HZ + q * (a * c) := by
    rw [show q * (a * c * HZ) + r = r + (q * (a * c)) * HZ by ring]
    exact Nat.add_mul_div_right _ _ hHZ
  have h2 : (r / HZ + q * (a * c)) % a = (r / HZ) % a := by
    rw [show q * (a * c) = (q * c) * a by ring]
    exact Nat.add_mul_mod_self_right _ _ _
  rw [h1, h2]
  have := Nat.mod_le (r / HZ) a
  omega

theorem byte_pos_calc_ok {HZ : Nat} {p : vsnd_pcm} (hHZ : HZ ≠ 0) (ha : p.pcm_salign ≠ 0) (x : Nat) :
    byte_pos_calc HZ p x = .ok (byte_pos HZ p.pcm_salign x) := by
  simp [byte_pos_calc, hHZ, ha, byte_pos, align_down]

theorem vsnd_pos_calc_ok {HZ : Nat} {p : vsnd_pcm} (e : Nat) (hHZ : HZ ≠ 0) (ha : p.pcm_salign ≠ 0)
    (hF : p.period_size_frac ≠ 0) (hd : p.last_drift = 0)
    (hw : p.irq_pos + e * p.pcm_bps < 4294967296) :
    vsnd_pos_calc HZ p e =
      .ok ({ p with irq_pos := (p.irq_pos + e * p.pcm_bps) % p.period_size_frac
                    last_drift := 0
                    period_update_pending :=
                      p.period_update_pending || decide (p.period_size_frac ≤ p.irq_pos + e * p.pcm_bps) },
           byte_pos HZ p.pcm_salign (p.irq_pos + e * p.pcm_bps) - byte_pos HZ p.pcm_salign p.irq_pos) := by
  have h1 : (e * p.pcm_bps) % 4294967296 = e * p.pcm_bps := Nat.mod_eq_of_lt (by omega)
  have h2 : (p.irq_pos + e * p.pcm_bps) % 4294967296 = p.irq_pos + e * p.pcm_bps :=
    Nat.mod_eq_of_lt hw
  have hm := byte_pos_mono HZ p.pcm_salign (Nat.le_add_right p.irq_pos (e * p.pcm_bps))
  have hl := byte_pos_le HZ p.pcm_salign (p.irq_pos + e * p.pcm_bps)
  have hl2 : (p.irq_pos + e * p.pcm_bps) / HZ ≤ p.irq_pos + e * p.pcm_bps := Nat.div_le_self _ _
  have h3 : (byte_pos HZ p.pcm_salign (p.irq_pos + e * p.pcm_bps) + 4294967296
      - byte_pos HZ p.pcm_salign p.irq_pos) % 4294967296
      = byte_pos HZ p.pcm_salign (p.irq_pos + e * p.pcm_bps) - byte_pos HZ p.pcm_salign p.irq_pos := by
    omega
  unfold vsnd_pos_calc
  rw [byte_pos_calc_ok hHZ ha]
  simp only [h1, h2]
  rw [byte_pos_calc_ok hHZ (by simpa using ha)]
  simp only [h3, hd, ge_iff_le, Nat.zero_le, if_true, Nat.sub_zero]
  by_cases hc : p.period_size_frac ≤ p.irq_pos + e * p.pcm_bps
  · simp [hc, hF]
  · have : (p.irq_pos + e * p.pcm_bps) % p.period_size_frac = p.irq_pos + e * p.pcm_bps :=
      Nat.mod_eq_of_lt (by omega)
    simp [hc, this]

theorem log_bytes_append (l : List kwrite) (w : kwrite) :
    log_bytes (l ++ [w]) = log_bytes l + w.size := by
  simp [log_bytes]

theorem vsnd_pos_calc_shape {HZ : Nat} {p p' : vsnd_pcm} {e b : Nat}
    (h : vsnd_pos_calc HZ p e = .ok (p', b)) :
    p' = { p with irq_pos := p'.irq_pos, last_drift := 0,
                  period_update_pending := p'.period_update_pending } ∧
    (p.period_size_frac ≠ 0 → p'.irq_pos < p.period_size_frac) ∧
    p'.irq_pos < 4294967296 ∧ b < 4294967296 ∧ HZ ≠ 0 ∧ p.pcm_salign ≠ 0 := by
  unfold vsnd_pos_calc at h
  by_cases hHZ : HZ = 0
  · simp [byte_pos_calc, hHZ] at h
  by_cases ha : p.pcm_salign = 0
  · simp [byte_pos_calc, hHZ, ha] at h
  rw [byte_pos_calc_ok hHZ ha] at h
  simp only [] at h
  rw [byte_pos_calc_ok hHZ (by simpa using ha)] at h
  simp only [] at h
  have hlt : (p.irq_pos + e * p.pcm_bps % 4294967296) % 4294967296 < 4294967296 :=
    Nat.mod_lt _ (by norm_num)
  have hb : ∀ c l d : Nat, (if (c + 4294967296 - l) % 4294967296 ≥ d
      then (c + 4294967296 - l) % 4294967296 - d else (c + 4294967296 - l) % 4294967296)
      < 4294967296 := by
    intro c l d
    split <;> omega
  split at h
  · split at h
    · cases h
    · simp only [Except.ok.injEq, Prod.mk.injEq] at h
      obtain ⟨h1, h2⟩ := h
      subst h1 h2
      refine ⟨rfl, ?_, ?_, hb _ _ _, hHZ, ha⟩
      · intro hF
        exact Nat.mod_lt _ (Nat.pos_of_ne_zero hF)
      · exact lt_of_le_of_lt (Nat.mod_le _ _) hlt
  · simp only [Except.ok.injEq, Prod.mk.injEq] at h
    obtain ⟨h1, h2⟩ := h
    subst h1 h2
    refine ⟨rfl, ?_, hlt, hb _ _ _, hHZ, ha⟩
    intro _
    simp only [] at *
    omega

theorem drain_loop_ok (kw : Nat → Option Nat → Nat → Nat → Int) (fp : Option Nat) {B : Nat}
    (hB : 0 < B) (hB32 : B < 4294967296) :
    ∀ (fuel left off : Nat) (log : List kwrite), off < B → left < 4294967296 →
      (off + left) / B + 1 ≤ fuel →
      ∃ log', drain_loop kw fp B fuel left off log = .ok log' ∧
        log_bytes log' = log_bytes log + left := by
  intro fuel
  induction fuel with
  | zero => intro left off log _ _ h; exact absurd h (Nat.not_succ_le_zero _)
  | succ n ih =>
    intro left off log hoff hleft hfuel
    rw [drain_loop]
    by_cases hc : (off + left) % 4294967296 > B
    · have hs : (B + 4294967296 - off) % 4294967296 = B - off := by omega
      have hle : B - off ≤ left := by omega
      have hl : (left + 4294967296 - (B - off)) % 4294967296 = left - (B - off) := by omega
      have ho : ((off + (B - off)) % 4294967296) % B = 0 := by
        have : off + (B - off) = B := by omega
        rw [this, Nat.mod_eq_of_lt hB32, Nat.mod_self]
      simp only [hc, if_true, hs, hl, ho, Nat.ne_of_gt hB, if_false]
      by_cases hz : left - (B - off) > 0
      · simp only [hz, if_true]
        have hge : B ≤ off + left := by omega
        have hdiv : (off + left) / B = (off + left - B) / B + 1 := by
          rw [Nat.div_eq (off + left) B]
          simp [hB, hge]
        obtain ⟨log', h1, h2⟩ := ih (left - (B - off)) 0
          (log ++ [{ fp := fp, off := off, size := B - off,
                     ret := kw log.length fp off (B - off) }]) hB (by omega)
          (by
            have : 0 + (left - (B - off)) = off + left - B := by omega
            rw [this]
            rw [hdiv] at hfuel
            exact Nat.le_of_succ_le_succ hfuel)
        refine ⟨log', h1, ?_⟩
        rw [h2, log_bytes_append]
        simp only []
        omega
      · simp only [hz, if_false]
        refine ⟨_, rfl, ?_⟩
        rw [log_bytes_append]
        simp only []
        omega
    · have hl : (left + 4294967296 - left) % 4294967296 = 0 := by omega
      simp only [hc, if_false, hl, Nat.ne_of_gt hB, gt_iff_lt, Nat.lt_irrefl]
      refine ⟨_, rfl, ?_⟩
      rw [log_bytes_append]

theorem vsnd_timer_set_ok {HZ : Nat} (jiffies : Nat) {p : vsnd_pcm}
    (hirq : p.irq_pos < (p.pcm_period_size * HZ) % 4294967296) (hbps : p.pcm_bps ≠ 0) :
    ∃ t, vsnd_timer_set HZ jiffies p =
      .ok { p with period_size_frac := (p.pcm_period_size * HZ) % 4294967296, timer := t } := by
  unfold vsnd_timer_set
  have h1 : ¬ ((p.pcm_period_size * HZ) % 4294967296 ≤ p.irq_pos) := by omega
  simp only [h1, false_and, if_false, DIV_ROUND_UP, hbps]
  exact ⟨_, rfl⟩

theorem vsnd_pos_update_idle (K : Env) (jiffies : Nat) (s : State)
    (hr : xor s.vsnd.running s.vsnd.paused = false) :
    vsnd_pos_update K jiffies s = .ok (s, false, []) := by
  simp [vsnd_pos_update, hr]

theorem vsnd_pos_update_zero (K : Env) (jiffies : Nat) (s : State)
    (hr : xor s.vsnd.running s.vsnd.paused = true) (he : elapsed_ticks jiffies s = 0) :
    vsnd_pos_update K jiffies s =
      .ok ({ s with pcm := { s.pcm with last_jiffies := s.pcm.last_jiffies % 18446744073709551616 } },
           true, []) := by
  unfold elapsed_ticks at he
  simp [vsnd_pos_update, hr, he]

theorem vsnd_pos_update_run (K : Env) (jiffies : Nat) (s : State)
    (hr : xor s.vsnd.running s.vsnd.paused = true) (he : elapsed_ticks jiffies s ≠ 0) :
    vsnd_pos_update K jiffies s =
      match vsnd_pos_calc K.HZ
          { s.pcm with last_jiffies :=
              (s.pcm.last_jiffies + elapsed_ticks jiffies s) % 18446744073709551616 }
          (elapsed_ticks jiffies s) with
      | .error f => .error f
      | .ok (p2, bytes_to_write) =>
        match drain_loop (K.kernel_write jiffies) s.vsnd.fifo_fp p2.pcm_buffer_size
                (4294967296 / p2.pcm_buffer_size + 3) bytes_to_write s.pcm.buf_pos [] with
        | .error f => .error f
        | .ok log =>
          if p2.pcm_buffer_size = 0 then .error .div_by_zero
          else
            .ok ({ s with
                   pcm := { p2 with
                            buf_pos := ((p2.buf_pos + bytes_to_write) % 4294967296)
                                         % p2.pcm_buffer_size } },
                 true, log) := by
  unfold elapsed_ticks at he ⊢
  simp only [vsnd_pos_update, hr, if_true, he, if_false]

/-- What `vsnd_pos_update` does when it returns: nothing when not running,
and otherwise the position computed by `vsnd_pos_calc`. -/
theorem vsnd_pos_update_inv {K : Env} {jiffies : Nat} {s s1 : State} {r : Bool} {w : List kwrite}
    (h : vsnd_pos_update K jiffies s = .ok (s1, r, w)) :
    r = xor s.vsnd.running s.vsnd.paused ∧ s1.vsnd = s.vsnd ∧
    ((r = false ∧ s1 = s ∧ w = []) ∨
     (r = true ∧ elapsed_ticks jiffies s = 0 ∧ w = [] ∧
        s1.pcm = { s.pcm with last_jiffies := s.pcm.last_jiffies % 18446744073709551616 }) ∨
     (r = true ∧ elapsed_ticks jiffies s ≠ 0 ∧ s.pcm.pcm_buffer_size ≠ 0 ∧
        ∃ p2 b, vsnd_pos_calc K.HZ
            { s.pcm with last_jiffies :=
                (s.pcm.last_jiffies + elapsed_ticks jiffies s) % 18446744073709551616 }
            (elapsed_ticks jiffies s) = .ok (p2, b) ∧
          drain_loop (K.kernel_write jiffies) s.vsnd.fifo_fp s.pcm.pcm_buffer_size
            (4294967296 / s.pcm.pcm_buffer_size + 3) b s.pcm.buf_pos [] = .ok w ∧
          s1.pcm = { p2 with buf_pos := ((s.pcm.buf_pos + b) % 4294967296)
                                          % s.pcm.pcm_buffer_size })) := by
  by_cases hr : xor s.vsnd.running s.vsnd.paused = true
  · by_cases he : elapsed_ticks jiffies s = 0
    · rw [vsnd_pos_update_zero K jiffies s hr he] at h
      simp only [Except.ok.injEq, Prod.mk.injEq] at h
      obtain ⟨h1, h2, h3⟩ := h
      subst h1 h2 h3
      exact ⟨hr.symm, rfl, Or.inr (Or.inl ⟨rfl, he, rfl, rfl⟩)⟩
    · rw [vsnd_pos_update_run K jiffies s hr he] at h
      split at h
      · cases h
      · rename_i p2 b hcalc
        have hshape := (vsnd_pos_calc_shape hcalc).1
        have hB : p2.pcm_buffer_size = s.pcm.pcm_buffer_size := by rw [hshape]
        have hpos : p2.buf_pos = s.pcm.buf_pos := by rw [hshape]
        rw [hB, hpos] at h
        split at h
        · cases h
        · rename_i log hloop
          split at h
          · cases h
          · rename_i hBz
            simp only [Except.ok.injEq, Prod.mk.injEq] at h
            obtain ⟨h1, h2, h3⟩ := h
            subst h1 h2 h3
            exact ⟨hr.symm, rfl, Or.inr (Or.inr ⟨rfl, he, hBz, p2, b, hcalc, hloop, by simp [hB]⟩)⟩
  · have hr' : xor s.vsnd.running s.vsnd.paused = false := by simpa using hr
    rw [vsnd_pos_update_idle K jiffies s hr'] at h
    simp only [Except.ok.injEq, Prod.mk.injEq] at h
    obtain ⟨h1, h2, h3⟩ := h
    subst h1 h2 h3
    exact ⟨hr'.symm, rfl, Or.inl ⟨rfl, rfl, rfl⟩⟩

theorem vsnd_pos_calc_frame {HZ : Nat} {p p' : vsnd_pcm} {e b : Nat}
    (h : vsnd_pos_calc HZ p e = .ok (p', b)) :
    p'.pcm_buffer_size = p.pcm_buffer_size ∧ p'.buf_pos = p.buf_pos ∧
    p'.silent_size = p.silent_size ∧ p'.pcm_period_size = p.pcm_period_size ∧
    p'.pcm_bps = p.pcm_bps ∧ p'.pcm_salign = p.pcm_salign ∧
    p'.period_size_frac = p.period_size_frac ∧ p'.last_jiffies = p.last_jiffies ∧
    p'.timer = p.timer ∧ p'.last_drift = 0 := by
  have hs := (vsnd_pos_calc_shape h).1
  refine ⟨?_, ?_, ?_, ?_, ?_, ?_, ?_, ?_, ?_, ?_⟩ <;> rw [hs]

theorem vsnd_timer_elapsed_of_update {K : Env} {jiffies : Nat} {s s1 : State} {w : List kwrite}
    (hu : vsnd_pos_update K jiffies s = .ok (s1, true, w))
    (hirq : s1.pcm.irq_pos < (s1.pcm.pcm_period_size * K.HZ) % 4294967296)
    (hbps : s1.pcm.pcm_bps ≠ 0) :
    ∃ t, vsnd_timer_elapsed K jiffies s =
      .ok ({ s1 with pcm := { s1.pcm with
                period_size_frac := (s1.pcm.pcm_period_size * K.HZ) % 4294967296
                timer := t
                period_update_pending := false } },
           { writes := w, period_elapsed := s1.pcm.period_update_pending }) := by
  obtain ⟨t, ht⟩ := vsnd_timer_set_ok jiffies hirq hbps
  refine ⟨t, ?_⟩
  unfold vsnd_timer_elapsed
  rw [hu]
  simp only [if_true, ht]
  cases hp : s1.pcm.period_update_pending
  · simp [hp]
  · simp [hp]

theorem vsnd_timer_elapsed_idle (K : Env) (jiffies : Nat) (s : State)
    (hr : xor s.vsnd.running s.vsnd.paused = false) :
    vsnd_timer_elapsed K jiffies s = .ok (s, { writes := [], period_elapsed := false }) := by
  unfold vsnd_timer_elapsed
  rw [vsnd_pos_update_idle K jiffies s hr]
  simp

/-- The timer callback keeps the invariant, the geometry and the flags. -/
theorem tick_inv {K : Env} {jiffies : Nat} {s s' : State} {o : TickOut} (inv : ClockInv K s)
    (h : vsnd_timer_elapsed K jiffies s = .ok (s', o)) :
    ClockInv K s' ∧ same_geometry s s' ∧ s'.vsnd = s.vsnd := by
  have hF : s.pcm.irq_pos < (s.pcm.pcm_period_size * K.HZ) % 4294967296 := by
    have := inv.irq; rw [inv.frac] at this; exact this
  cases hu : vsnd_pos_update K jiffies s with
  | error f => simp [vsnd_timer_elapsed, hu] at h
  | ok res =>
    obtain ⟨s1, r, w⟩ := res
    obtain ⟨hr, hv, hcase⟩ := vsnd_pos_update_inv hu
    rcases hcase with ⟨hr0, hs, _⟩ | ⟨hr1, _, _, hs⟩ | ⟨hr1, _, hB, p2, b, hcalc, _, hs⟩
    · subst hr0
      rw [vsnd_timer_elapsed_idle K jiffies s hr.symm] at h
      simp only [Except.ok.injEq, Prod.mk.injEq] at h
      rw [← h.1]
      exact ⟨inv, ⟨rfl, rfl, rfl, rfl⟩, rfl⟩
    · subst hr1
      obtain ⟨t, ht⟩ := vsnd_timer_elapsed_of_update hu (by rw [hs]; exact hF)
        (by rw [hs]; exact inv.bps)
      rw [ht] at h
      simp only [Except.ok.injEq, Prod.mk.injEq] at h
      rw [← h.1]
      refine ⟨?_, ⟨?_, ?_, ?_, ?_⟩, hv⟩
      · constructor <;> (try simp only [hs])
        · exact inv.hz
        · exact inv.salign
        · exact inv.bps
        · exact hF
        · exact inv.drift
        · exact Nat.mod_lt _ (by norm_num)
        · exact inv.buf32
        · exact inv.buf
      all_goals simp only [hs]
    · subst hr1
      obtain ⟨f1, f2, f3, f4, f5, f6, f7, f8, f9, f10⟩ := vsnd_pos_calc_frame hcalc
      obtain ⟨_, g2, _⟩ := vsnd_pos_calc_shape hcalc
      simp only [] at f1 f2 f3 f4 f5 f6 f7 f8 f9 f10 g2
      have hirq' : p2.irq_pos < (s.pcm.pcm_period_size * K.HZ) % 4294967296 := by
        rw [← inv.frac]
        exact g2 (by have := inv.irq; omega)
      obtain ⟨t, ht⟩ := vsnd_timer_elapsed_of_update hu (by rw [hs]; simp only [f4]; exact hirq')
        (by rw [hs]; simp only [f5]; exact inv.bps)
      rw [ht] at h
      simp only [Except.ok.injEq, Prod.mk.injEq] at h
      rw [← h.1]
      refine ⟨?_, ⟨?_, ?_, ?_, ?_⟩, hv⟩
      · constructor <;> (try simp only [hs, f1, f4, f5, f6, f8, f10])
        · exact inv.hz
        · exact inv.salign
        · exact inv.bps
        · exact hirq'
        · exact Nat.mod_lt _ (by norm_num)
        · exact inv.buf32
        · intro _
          exact Nat.mod_lt _ (Nat.pos_of_ne_zero hB)
      all_goals simp only [hs, f1, f4, f5, f6]

theorem to_uint_to_int (x : Nat) : to_uint (to_int x) = x % 4294967296 := by
  unfold to_uint to_int
  split <;> omega

theorem to_int_pos {x : Nat} (h : 0 < to_int x) :
    0 < x % 4294967296 ∧ x % 4294967296 < 2147483648 := by
  unfold to_int at h
  split at h <;> omega

/-- What `vsnd_timer_set` does when it returns. -/
theorem vsnd_timer_set_inv {HZ jiffies : Nat} {p p' : vsnd_pcm}
    (h : vsnd_timer_set HZ jiffies p = .ok p') :
    p'.period_size_frac = (p.pcm_period_size * HZ) % 4294967296 ∧
    p'.irq_pos < p'.period_size_frac ∧ p.pcm_bps ≠ 0 ∧
    (p.irq_pos < (p.pcm_period_size * HZ) % 4294967296 →
      p'.irq_pos = p.irq_pos ∧ p'.period_update_pending = p.period_update_pending) ∧
    p'.pcm_buffer_size = p.pcm_buffer_size ∧ p'.buf_pos = p.buf_pos ∧
    p'.silent_size = p.silent_size ∧ p'.pcm_period_size = p.pcm_period_size ∧
    p'.pcm_bps = p.pcm_bps ∧ p'.pcm_salign = p.pcm_salign ∧
    p'.last_jiffies = p.last_jiffies ∧ p'.last_drift = p.last_drift ∧
    p'.timer.pending = true := by
  unfold vsnd_timer_set at h
  simp only [] at h
  split at h
  · cases h
  · rename_i hne
    by_cases hc : (p.pcm_period_size * HZ) % 4294967296 ≤ p.irq_pos
    · have hF : (p.pcm_period_size * HZ) % 4294967296 ≠ 0 := fun h0 => hne ⟨hc, h0⟩
      simp only [hc, if_true, DIV_ROUND_UP] at h
      by_cases hb : p.pcm_bps = 0
      · simp [hb] at h
      · simp only [hb, if_false, Except.ok.injEq] at h
        subst h
        refine ⟨rfl, Nat.mod_lt _ (Nat.pos_of_ne_zero hF), hb, ?_, rfl, rfl, rfl, rfl, rfl, rfl,
          rfl, rfl, rfl⟩
        intro hlt
        omega
    · simp only [hc, if_false, DIV_ROUND_UP] at h
      by_cases hb : p.pcm_bps = 0
      · simp [hb] at h
      · simp only [hb, if_false, Except.ok.injEq] at h
        subst h
        refine ⟨rfl, ?_, hb, fun _ => ⟨rfl, rfl⟩, rfl, rfl, rfl, rfl, rfl, rfl, rfl, rfl, rfl⟩
        simp only []
        omega

/-- What a successful `vsnd_prepare` stores. -/
theorem vsnd_prepare_inv {runtime : snd_pcm_runtime} {s0 s1 : State}
    (h : vsnd_prepare runtime s0 = (s1, 0)) :
    0 < prepare_salign runtime ∧ 0 < prepare_bits_per_secs runtime ∧
    s1.vsnd = s0.vsnd ∧
    s1.pcm = { vsnd_timer_delete s0.pcm true with
                buf_pos := 0
                pcm_buffer_size := frames_to_bytes runtime runtime.buffer_size % 4294967296
                irq_pos := 0
                period_update_pending := false
                pcm_bps := to_uint (prepare_bits_per_secs runtime)
                pcm_salign := to_uint (prepare_salign runtime)
                pcm_period_size := frames_to_bytes runtime runtime.period_size % 4294967296 } := by
  unfold vsnd_prepare at h
  simp only [] at h
  split at h
  · simp [EINVAL] at h
  · rename_i hc
    simp only [Prod.mk.injEq, and_true] at h
    subst h
    refine ⟨by omega, by omega, rfl, rfl⟩

theorem prepare_salign_pos {runtime : snd_pcm_runtime} (h : 0 < prepare_salign runtime) :
    to_uint (prepare_salign runtime) ≠ 0 := by
  unfold prepare_salign at h ⊢
  rw [to_uint_to_int]
  have := to_int_pos h
  omega

theorem prepare_bps_pos {runtime : snd_pcm_runtime} (h : 0 < prepare_bits_per_secs runtime) :
    to_uint (prepare_bits_per_secs runtime) ≠ 0 := by
  unfold prepare_bits_per_secs at h ⊢
  rw [to_uint_to_int]
  have := to_int_pos h
  omega

theorem clockinv_timer_set {K : Env} {s : State} {v : vsnd} {j lj : Nat} {p' : vsnd_pcm}
    (inv : ClockInv K s) (hlj : lj < 18446744073709551616)
    (h : vsnd_timer_set K.HZ j { s.pcm with last_jiffies := lj, last_drift := 0 } = .ok p') :
    ClockInv K { vsnd := v, pcm := p' } ∧ same_geometry s { vsnd := v, pcm := p' } ∧
    p'.buf_pos = s.pcm.buf_pos ∧ p'.irq_pos = s.pcm.irq_pos ∧ p'.last_jiffies = lj ∧
    p'.timer.pending = true := by
  obtain ⟨h1, h2, _, h4, h5, h6, _, h8, h9, h10, h11, h12, h13⟩ := vsnd_timer_set_inv h
  simp only [] at h1 h2 h4 h5 h6 h8 h9 h10 h11 h12
  have hF : s.pcm.irq_pos < (s.pcm.pcm_period_size * K.HZ) % 4294967296 := by
    have := inv.irq; rw [inv.frac] at this; exact this
  obtain ⟨h4a, h4b⟩ := h4 hF
  refine ⟨?_, ⟨h5, h8, h9, h10⟩, h6, h4a, h11, h13⟩
  constructor <;> (try simp only [h1, h4a, h4b, h5, h6, h8, h9, h10, h11, h12])
  · exact inv.hz
  · exact inv.salign
  · exact inv.bps
  · exact hF
  · exact inv.pending
  · exact hlj
  · exact inv.buf32
  · exact inv.buf

theorem clockinv_timer_set_ok {K : Env} {s : State} (inv : ClockInv K s) (j lj : Nat) :
    ∃ p', vsnd_timer_set K.HZ j { s.pcm with last_jiffies := lj, last_drift := 0 } = .ok p' := by
  have hF : s.pcm.irq_pos < (s.pcm.pcm_period_size * K.HZ) % 4294967296 := by
    have := inv.irq; rw [inv.frac] at this; exact this
  obtain ⟨t, ht⟩ := vsnd_timer_set_ok j
    (p := { s.pcm with last_jiffies := lj, last_drift := 0 }) hF inv.bps
  exact ⟨_, ht⟩

theorem clockinv_timer_delete {K : Env} {s : State} {v : vsnd} (inv : ClockInv K s) (sync : Bool) :
    ClockInv K { vsnd := v, pcm := vsnd_timer_delete s.pcm sync } := by
  unfold vsnd_timer_delete
  cases sync <;>
    exact ⟨inv.hz, inv.salign, inv.bps, inv.frac, inv.irq, inv.drift, inv.pending, inv.jiffies,
      inv.buf32, inv.buf⟩

theorem pcm_with_drift_zero {p : vsnd_pcm} (h : p.last_drift = 0) (lj : Nat) :
    ({ p with last_jiffies := lj } : vsnd_pcm) = { p with last_jiffies := lj, last_drift := 0 } := by
  cases p
  simp only [] at h
  subst h
  rfl

/-- A trigger command keeps the invariant, the geometry and both positions. -/
theorem trigger_inv {K : Env} {now : Nat} {cmd r : Int} {s s' : State} (inv : ClockInv K s)
    (hnow : now < 18446744073709551616) (h : vsnd_trigger K now cmd s = .ok (s', r)) :
    ClockInv K s' ∧ same_geometry s s' ∧ s'.pcm.buf_pos = s.pcm.buf_pos ∧
    s'.pcm.irq_pos = s.pcm.irq_pos := by
  unfold vsnd_trigger at h
  split_ifs at h with h1 h2 h3 h4
  · simp only [] at h
    split at h
    · cases h
    · rename_i p2 ht
      simp only [Except.ok.injEq, Prod.mk.injEq] at h
      rw [← h.1]
      obtain ⟨g1, g2, g3, g4, _, _⟩ := clockinv_timer_set (v := { s.vsnd with running := true, paused := false }) inv hnow ht
      exact ⟨g1, g2, g3, g4⟩
  · simp only [Except.ok.injEq, Prod.mk.injEq] at h
    rw [← h.1]
    refine ⟨clockinv_timer_delete inv false, ?_, ?_, ?_⟩ <;> simp [vsnd_timer_delete, same_geometry]
  · simp only [Except.ok.injEq, Prod.mk.injEq] at h
    rw [← h.1]
    refine ⟨clockinv_timer_delete inv false, ?_, ?_, ?_⟩ <;> simp [vsnd_timer_delete, same_geometry]
  · simp only [] at h
    rw [pcm_with_drift_zero inv.drift] at h
    split at h
    · cases h
    · rename_i p2 ht
      simp only [Except.ok.injEq, Prod.mk.injEq] at h
      rw [← h.1]
      obtain ⟨g1, g2, g3, g4, _, _⟩ := clockinv_timer_set (v := { s.vsnd with paused := false }) inv hnow ht
      exact ⟨g1, g2, g3, g4⟩
  · simp only [Except.ok.injEq, Prod.mk.injEq] at h
    rw [← h.1]
    exact ⟨inv, ⟨rfl, rfl, rfl, rfl⟩, rfl, rfl⟩

/-- Under the invariant every trigger command returns. -/
theorem trigger_total {K : Env} (now : Nat) (cmd : Int) {s : State} (inv : ClockInv K s) :
    ∃ s' r, vsnd_trigger K now cmd s = .ok (s', r) := by
  unfold vsnd_trigger
  split_ifs with h1 h2 h3 h4
  · obtain ⟨p', hp⟩ := clockinv_timer_set_ok inv now now
    simp only [hp]
    exact ⟨_, _, rfl⟩
  · exact ⟨_, _, rfl⟩
  · exact ⟨_, _, rfl⟩
  · obtain ⟨p', hp⟩ := clockinv_timer_set_ok inv now now
    rw [← pcm_with_drift_zero inv.drift] at hp
    simp only [hp]
    exact ⟨_, _, rfl⟩
  · exact ⟨_, _, rfl⟩

/-- The state right after prepare and Start. -/
theorem start_inv {K : Env} {runtime : snd_pcm_runtime} {s0 s1 s2 : State} {now : Nat} {r : Int}
    (hp : vsnd_prepare runtime s0 = (s1, 0)) (hnow : now < 18446744073709551616)
    (hs : vsnd_trigger K now SNDRV_PCM_TRIGGER_START s1 = .ok (s2, r)) :
    ClockInv K s2 ∧ same_geometry s1 s2 ∧ s2.pcm.irq_pos = 0 ∧ s2.pcm.buf_pos = 0 ∧
    s2.vsnd.running = true ∧ s2.vsnd.paused = false ∧ s2.pcm.last_jiffies = now ∧ r = 0 := by
  obtain ⟨a1, a2, _, a4⟩ := vsnd_prepare_inv hp
  have hsal := prepare_salign_pos a1
  have hbps := prepare_bps_pos a2
  unfold vsnd_trigger at hs
  simp only [if_true] at hs
  split at hs
  · cases hs
  · rename_i p2 ht
    simp only [Except.ok.injEq, Prod.mk.injEq] at hs
    obtain ⟨hs1, hs2⟩ := hs
    subst hs1
    obtain ⟨h1, h2, _, h4, h5, h6, _, h8, h9, h10, h11, h12, _⟩ := vsnd_timer_set_inv ht
    simp only [] at h1 h2 h4 h5 h6 h8 h9 h10 h11 h12
    have hirq0 : s1.pcm.irq_pos = 0 := by rw [a4]
    have hbuf0 : s1.pcm.buf_pos = 0 := by rw [a4]
    have hpend : s1.pcm.period_update_pending = false := by rw [a4]
    have hB : s1.pcm.pcm_buffer_size < 4294967296 := by
      rw [a4]; exact Nat.mod_lt _ (by norm_num)
    have hF : (s1.pcm.pcm_period_size * K.HZ) % 4294967296 ≠ 0 := by
      intro h0
      rw [h1, h0] at h2
      omega
    have hlt : s1.pcm.irq_pos < (s1.pcm.pcm_period_size * K.HZ) % 4294967296 := by
      rw [hirq0]; exact Nat.pos_of_ne_zero hF
    obtain ⟨h4a, h4b⟩ := h4 hlt
    have hHZ : K.HZ ≠ 0 := by
      intro h0
      rw [h0] at hF
      simp at hF
    refine ⟨?_, ⟨h5, h8, h9, h10⟩, by simp only [h4a, hirq0], by simp only [h6, hbuf0],
      rfl, rfl, h11, hs2.symm⟩
    constructor <;> (try simp only [h1, h4a, h4b, h5, h6, h8, h9, h10, h11, h12])
    · exact hHZ
    · rw [a4]; exact hsal
    · rw [a4]; exact hbps
    · exact hlt
    · exact hpend
    · exact hnow
    · exact hB
    · intro hne
      rw [hbuf0]
      exact Nat.pos_of_ne_zero hne

/-- Every state of a started stream satisfies the invariant. -/
theorem started_inv {K : Env} {s : State} (h : Started K s) : ClockInv K s := by
  induction h with
  | start hp hnow hs => exact (start_inv hp hnow hs).1
  | trigger _ hnow ht ih => exact (trigger_inv ih hnow ht).1
  | tick _ _ ht ih => exact (tick_inv ih ht).1

theorem elapsed_ticks_eq {s : State} {e : Nat} (hj : s.pcm.last_jiffies < 18446744073709551616)
    (he : e < 4294967296) :
    elapsed_ticks ((s.pcm.last_jiffies + e) % 18446744073709551616) s = e := by
  unfold elapsed_ticks
  omega

/-- One callback of a running stream whose advance does not wrap 32 bits. -/
theorem tick_running {K : Env} {s : State} {e : Nat} (inv : ClockInv K s)
    (hr : s.vsnd.running = true) (hp : s.vsnd.paused = false) (he : 0 < e)
    (hw : s.pcm.irq_pos + e * s.pcm.pcm_bps < 4294967296) (hB : s.pcm.pcm_buffer_size ≠ 0) :
    ∃ s' o, vsnd_timer_elapsed K ((s.pcm.last_jiffies + e) % 18446744073709551616) s = .ok (s', o) ∧
      s'.pcm.irq_pos = (s.pcm.irq_pos + e * s.pcm.pcm_bps) % s.pcm.period_size_frac ∧
      o.bytes = byte_pos K.HZ s.pcm.pcm_salign (s.pcm.irq_pos + e * s.pcm.pcm_bps)
                  - byte_pos K.HZ s.pcm.pcm_salign s.pcm.irq_pos ∧
      s'.pcm.buf_pos = ((s.pcm.buf_pos + o.bytes) % 4294967296) % s.pcm.pcm_buffer_size ∧
      o.period_elapsed = decide (s.pcm.period_size_frac ≤ s.pcm.irq_pos + e * s.pcm.pcm_bps) ∧
      s'.pcm.last_jiffies = (s.pcm.last_jiffies + e) % 18446744073709551616 := by
  have hbps : 0 < s.pcm.pcm_bps := Nat.pos_of_ne_zero inv.bps
  have he32 : e < 4294967296 := by
    have : e ≤ e * s.pcm.pcm_bps := Nat.le_mul_of_pos_right e hbps
    omega
  have hel := elapsed_ticks_eq inv.jiffies he32
  have hx : xor s.vsnd.running s.vsnd.paused = true := by rw [hr, hp]; rfl
  have hFne : s.pcm.period_size_frac ≠ 0 := by have := inv.irq; omega
  have hcalc := vsnd_pos_calc_ok (p := { s.pcm with last_jiffies := (s.pcm.last_jiffies + e) % 18446744073709551616 })
    e inv.hz inv.salign hFne inv.drift hw
  simp only [] at hcalc
  have hb32 : byte_pos K.HZ s.pcm.pcm_salign (s.pcm.irq_pos + e * s.pcm.pcm_bps)
      - byte_pos K.HZ s.pcm.pcm_salign s.pcm.irq_pos < 4294967296 := by
    have h1 := byte_pos_le K.HZ s.pcm.pcm_salign (s.pcm.irq_pos + e * s.pcm.pcm_bps)
    have h2 : (s.pcm.irq_pos + e * s.pcm.pcm_bps) / K.HZ ≤ s.pcm.irq_pos + e * s.pcm.pcm_bps :=
      Nat.div_le_self _ _
    omega
  have hBpos : 0 < s.pcm.pcm_buffer_size := Nat.pos_of_ne_zero hB
  have hfuel : (s.pcm.buf_pos + (byte_pos K.HZ s.pcm.pcm_salign (s.pcm.irq_pos + e * s.pcm.pcm_bps)
      - byte_pos K.HZ s.pcm.pcm_salign s.pcm.irq_pos)) / s.pcm.pcm_buffer_size + 1
      ≤ 4294967296 / s.pcm.pcm_buffer_size + 3 := by
    have h1 : (s.pcm.buf_pos + (byte_pos K.HZ s.pcm.pcm_salign (s.pcm.irq_pos + e * s.pcm.pcm_bps)
      - byte_pos K.HZ s.pcm.pcm_salign s.pcm.irq_pos)) / s.pcm.pcm_buffer_size
        ≤ (s.pcm.pcm_buffer_size + 4294967296) / s.pcm.pcm_buffer_size :=
      Nat.div_le_div_right (by have := inv.buf hB; omega)
    rw [Nat.add_div_left _ hBpos] at h1
    exact Nat.add_le_add_right (Nat.le_succ_of_le h1) 1
  obtain ⟨log, hloop, hlog⟩ := drain_loop_ok (K.kernel_write ((s.pcm.last_jiffies + e) % 18446744073709551616))
    s.vsnd.fifo_fp hBpos inv.buf32 _ _ _ [] (inv.buf hB) hb32 hfuel
  have hu := vsnd_pos_update_run K ((s.pcm.last_jiffies + e) % 18446744073709551616) s hx
    (by rw [hel]; omega)
  rw [hel, hcalc] at hu
  simp only [hloop, hB, if_false] at hu
  obtain ⟨t, ht⟩ := vsnd_timer_elapsed_of_update hu
    (by
      simp only []
      rw [← inv.frac]
      exact Nat.mod_lt _ (Nat.pos_of_ne_zero hFne))
    (by simp only []; exact inv.bps)
  refine ⟨_, _, ht, rfl, ?_, ?_, ?_, rfl⟩
  · simp only [TickOut.bytes]
    simpa [log_bytes] using hlog
  · simp only [TickOut.bytes]
    have : (List.map kwrite.size log).sum = byte_pos K.HZ s.pcm.pcm_salign (s.pcm.irq_pos + e * s.pcm.pcm_bps)
                  - byte_pos K.HZ s.pcm.pcm_salign s.pcm.irq_pos := by
      simpa [log_bytes] using hlog
    rw [this]
  · simp only [inv.pending, Bool.false_or]

theorem div_step {frac : Nat} (hF : 0 < frac) (X d : Nat) :
    (X % frac + d) / frac = (X + d) / frac - X / frac ∧
    (X % frac + d) % frac = (X + d) % frac := by
  have hX : X + d = (X % frac + d) + frac * (X / frac) := by
    have := Nat.div_add_mod X frac
    omega
  constructor
  · rw [hX, Nat.add_mul_div_left _ _ hF]
    exact (Nat.add_sub_cancel _ _).symm
  · rw [hX, Nat.add_mul_mod_self_left]

theorem bytes_step {HZ a P : Nat} (hHZ : 0 < HZ) (ha : a ∣ P) (X d : Nat) :
    byte_pos HZ a (X % (P * HZ) + d) - byte_pos HZ a (X % (P * HZ)) =
      byte_pos HZ a (X + d) - byte_pos HZ a X := by
  have h1 : X = (X / (P * HZ)) * (P * HZ) + X % (P * HZ) := by
    have := Nat.div_add_mod X (P * HZ)
    rw [Nat.mul_comm] at this
    omega
  have h2 : X + d = (X / (P * HZ)) * (P * HZ) + (X % (P * HZ) + d) := by omega
  have e1 := byte_pos_shift hHZ ha (X / (P * HZ)) (X % (P * HZ))
  have e2 := byte_pos_shift hHZ ha (X / (P * HZ)) (X % (P * HZ) + d)
  rw [← h1] at e1
  rw [← h2] at e2
  rw [e1, e2]
  omega

theorem drained_cons (o : TickOut) (os : List TickOut) :
    drained (o :: os) = o.bytes + drained os := by
  simp [drained]

theorem notifications_cons (o : TickOut) (os : List TickOut) :
    notifications (o :: os) = (if o.period_elapsed = true then 1 else 0) + notifications os := by
  unfold notifications
  cases h : o.period_elapsed
  · simp [List.filter, h]
  · simp [List.filter, h]
    omega

theorem telescope_arith {b0 b1 b2 : Nat} (h1 : b0 ≤ b1) (h2 : b1 ≤ b2) :
    (b1 - b0) + (b2 - b1) = b2 - b0 := by
  omega

theorem notif_arith {n n' ind q0 q1 q2 : Nat} (hn : n = ind + n')
    (hi : ind = if q0 < q1 then 1 else 0) (d1 : q0 ≤ q1) (d2 : q1 ≤ q2)
    (i3 : n' ≤ q2 - q1) (i4 : q1 < q2 → 0 < n') :
    n ≤ q2 - q0 ∧ (q0 < q2 → 0 < n) ∧ (q1 - q0 ≤ 1 → n' = q2 - q1 → n = q2 - q0) := by
  split at hi
  · refine ⟨by omega, by omega, by omega⟩
  · refine ⟨by omega, ?_, by omega⟩
    intro h
    have := i4 (by omega)
    omega

/-- The behaviour of a running stream over a sequence of callbacks that do
not wrap 32 bits, in terms of the unreduced scaled position `X`. -/
theorem run_elapsed_spec {K : Env} (es : List Nat) : ∀ (s : State) (X : Nat),
    ClockInv K s → s.vsnd.running = true → s.vsnd.paused = false →
    s.pcm.pcm_buffer_size ≠ 0 →
    s.pcm.pcm_period_size * K.HZ < 4294967296 →
    s.pcm.pcm_salign ∣ s.pcm.pcm_period_size →
    s.pcm.irq_pos = X % (s.pcm.pcm_period_size * K.HZ) →
    (∀ e ∈ es, 0 < e) →
    no_wrap (s.pcm.pcm_period_size * K.HZ) s.pcm.pcm_bps s.pcm.irq_pos es = true →
    ∃ s' os, run_elapsed K s es = .ok (s', os) ∧ ClockInv K s' ∧ same_geometry s s' ∧
      s'.vsnd = s.vsnd ∧
      s'.pcm.irq_pos = (X + es.sum * s.pcm.pcm_bps) % (s.pcm.pcm_period_size * K.HZ) ∧
      drained os = byte_pos K.HZ s.pcm.pcm_salign (X + es.sum * s.pcm.pcm_bps)
                     - byte_pos K.HZ s.pcm.pcm_salign X ∧
      notifications os ≤ (X + es.sum * s.pcm.pcm_bps) / (s.pcm.pcm_period_size * K.HZ)
                           - X / (s.pcm.pcm_period_size * K.HZ) ∧
      (X / (s.pcm.pcm_period_size * K.HZ)
          < (X + es.sum * s.pcm.pcm_bps) / (s.pcm.pcm_period_size * K.HZ) →
        0 < notifications os) ∧
      (single_period (s.pcm.pcm_period_size * K.HZ) s.pcm.pcm_bps s.pcm.irq_pos es = true →
        notifications os = (X + es.sum * s.pcm.pcm_bps) / (s.pcm.pcm_period_size * K.HZ)
                             - X / (s.pcm.pcm_period_size * K.HZ)) ∧
      (s.pcm.pcm_buffer_size + drained os ≤ 4294967296 →
        s'.pcm.buf_pos = (s.pcm.buf_pos + drained os) % s.pcm.pcm_buffer_size) := by
  induction es with
  | nil =>
    intro s X inv _ _ hB _ _ hX _ _
    refine ⟨s, [], rfl, inv, ⟨rfl, rfl, rfl, rfl⟩, rfl, ?_, ?_, ?_, ?_, ?_, ?_⟩
    · simpa using hX
    · simp [drained]
    · simp [notifications]
    · simp
    · simp [notifications]
    · intro _
      simp only [drained, List.map_nil, List.sum_nil, Nat.add_zero]
      exact (Nat.mod_eq_of_lt (inv.buf hB)).symm
  | cons e es ih =>
    intro s X inv hr hp hB hF hal hX hpos hnw
    simp only [no_wrap, Bool.and_eq_true, decide_eq_true_eq] at hnw
    obtain ⟨hw, hnw'⟩ := hnw
    have hfrac : s.pcm.period_size_frac = s.pcm.pcm_period_size * K.HZ := by
      rw [inv.frac]; exact Nat.mod_eq_of_lt hF
    have hFpos : 0 < s.pcm.pcm_period_size * K.HZ := by
      have := inv.irq; omega
    have hHZ : 0 < K.HZ := Nat.pos_of_ne_zero inv.hz
    have he : 0 < e := hpos e (List.mem_cons_self _ _)
    obtain ⟨s1, o, ht, hirq1, hbytes, hbuf1, hpe, _⟩ := tick_running inv hr hp he hw hB
    obtain ⟨inv1, ⟨g1, g2, g3, g4⟩, hv⟩ := tick_inv inv ht
    rw [hfrac] at hirq1 hpe
    have hds := div_step hFpos X (e * s.pcm.pcm_bps)
    rw [← hX] at hds
    obtain ⟨hds1, hds2⟩ := hds
    have a1 : s1.vsnd.running = true := by rw [hv]; exact hr
    have a2 : s1.vsnd.paused = false := by rw [hv]; exact hp
    have a3 : s1.pcm.pcm_buffer_size ≠ 0 := by rw [g1]; exact hB
    have a4 : s1.pcm.pcm_period_size * K.HZ < 4294967296 := by rw [g2]; exact hF
    have a5 : s1.pcm.pcm_salign ∣ s1.pcm.pcm_period_size := by rw [g2, g4]; exact hal
    have a6 : s1.pcm.irq_pos = (X + e * s.pcm.pcm_bps) % (s1.pcm.pcm_period_size * K.HZ) := by
      rw [hirq1, g2]; exact hds2
    have a7 : ∀ x ∈ es, 0 < x := fun x hx => hpos x (List.mem_cons_of_mem _ hx)
    have a8 : no_wrap (s1.pcm.pcm_period_size * K.HZ) s1.pcm.pcm_bps s1.pcm.irq_pos es = true := by
      rw [g2, g3, hirq1]; exact hnw'
    have hih := ih s1 (X + e * s.pcm.pcm_bps) inv1 a1 a2 a3 a4 a5 a6 a7 a8
    clear ih a8 hnw' a7 hpos
    rw [g1, g2, g3, g4] at hih
    have hsum : X + e * s.pcm.pcm_bps + es.sum * s.pcm.pcm_bps
        = X + (e :: es).sum * s.pcm.pcm_bps := by
      simp only [List.sum_cons]; ring
    rw [hsum] at hih
    obtain ⟨s', os, hrun, inv', ⟨k1, k2, k3, k4⟩, hv', i1, i2, i3, i4, i5, i6⟩ := hih
    have hbs := bytes_step hHZ hal X (e * s.pcm.pcm_bps)
    rw [← hX] at hbs
    rw [hbs] at hbytes
    have m1 := byte_pos_mono K.HZ s.pcm.pcm_salign (Nat.le_add_right X (e * s.pcm.pcm_bps))
    have hle : X + e * s.pcm.pcm_bps ≤ X + (e :: es).sum * s.pcm.pcm_bps := by
      rw [← hsum]; exact Nat.le_add_right _ _
    have m2 := byte_pos_mono K.HZ s.pcm.pcm_salign hle
    have d1 : X / (s.pcm.pcm_period_size * K.HZ)
        ≤ (X + e * s.pcm.pcm_bps) / (s.pcm.pcm_period_size * K.HZ) :=
      Nat.div_le_div_right (Nat.le_add_right _ _)
    have d2 : (X + e * s.pcm.pcm_bps) / (s.pcm.pcm_period_size * K.HZ)
        ≤ (X + (e :: es).sum * s.pcm.pcm_bps) / (s.pcm.pcm_period_size * K.HZ) :=
      Nat.div_le_div_right hle
    have hq : s.pcm.pcm_period_size * K.HZ ≤ s.pcm.irq_pos + e * s.pcm.pcm_bps ↔
        X / (s.pcm.pcm_period_size * K.HZ)
          < (X + e * s.pcm.pcm_bps) / (s.pcm.pcm_period_size * K.HZ) := by
      constructor
      · intro h
        have : 0 < (s.pcm.irq_pos + e * s.pcm.pcm_bps) / (s.pcm.pcm_period_size * K.HZ) :=
          Nat.div_pos h hFpos
        omega
      · intro h
        by_contra hc
        have : (s.pcm.irq_pos + e * s.pcm.pcm_bps) / (s.pcm.pcm_period_size * K.HZ) = 0 :=
          Nat.div_eq_of_lt (by omega)
        omega
    have hnc := notifications_cons o os
    rw [hpe] at hnc
    simp only [decide_eq_true_eq, hq] at hnc
    have hdc := drained_cons o os
    obtain ⟨c3, c4, c5'⟩ := notif_arith hnc rfl d1 d2 i3 i4
    have c0 : run_elapsed K s (e :: es) = .ok (s', o :: os) := by
      simp only [run_elapsed, ht, hrun]
    have c1 : s'.vsnd = s.vsnd := by rw [hv', hv]
    have c2 : drained (o :: os) = byte_pos K.HZ s.pcm.pcm_salign (X + (e :: es).sum * s.pcm.pcm_bps)
        - byte_pos K.HZ s.pcm.pcm_salign X := by
      rw [hdc, hbytes, i2]; exact telescope_arith m1 m2
    have c5 : single_period (s.pcm.pcm_period_size * K.HZ) s.pcm.pcm_bps s.pcm.irq_pos (e :: es)
        = true → notifications (o :: os)
          = (X + (e :: es).sum * s.pcm.pcm_bps) / (s.pcm.pcm_period_size * K.HZ)
              - X / (s.pcm.pcm_period_size * K.HZ) := by
      intro hsp
      simp only [single_period, Bool.and_eq_true, decide_eq_true_eq] at hsp
      obtain ⟨hs1, hs2⟩ := hsp
      rw [← hirq1] at hs2
      have hq1 : (s.pcm.irq_pos + e * s.pcm.pcm_bps) / (s.pcm.pcm_period_size * K.HZ) ≤ 1 := by
        rw [← Nat.lt_succ_iff, Nat.div_lt_iff_lt_mul hFpos]
        rw [Nat.two_mul] at hs1
        simpa [Nat.succ_mul] using hs1
      rw [hds1] at hq1
      exact c5' hq1 (i5 hs2)
    have c6 : s.pcm.pcm_buffer_size + drained (o :: os) ≤ 4294967296 →
        s'.pcm.buf_pos = (s.pcm.buf_pos + drained (o :: os)) % s.pcm.pcm_buffer_size := by
      intro hsz
      rw [hdc] at hsz ⊢
      have hb := inv.buf hB
      have h6 := i6 (Nat.le_trans (Nat.add_le_add_left (Nat.le_add_left _ _) _) hsz)
      have hlt : s.pcm.buf_pos + o.bytes < 4294967296 :=
        Nat.lt_of_lt_of_le (Nat.add_lt_add_of_lt_of_le hb (Nat.le_add_right _ _)) hsz
      rw [h6, hbuf1, Nat.mod_eq_of_lt hlt, Nat.mod_add_mod, Nat.add_assoc]
    exact ⟨s', o :: os, c0, inv', ⟨k1.trans g1, k2.trans g2, k3.trans g3, k4.trans g4⟩, c1, i1, c2, c3, c4, c5, c6⟩

/-- C1, counterexample. One callback that comes 100000 ticks late on the
default stream (4096/1024 bytes, alignment 2, 44100 bytes per second,
`HZ = 1000`): `100000 * 44100` exceeds `2^32`, the scaled position wraps and
115032 bytes are drained, where the claim promises 4410000. -/
theorem jitter_invariance_fails_on_wrap :
    vsnd_prepare (rt_default 2048 512) s_opened = (s_prepared, 0) ∧
    vsnd_trigger K1000 5000 SNDRV_PCM_TRIGGER_START s_prepared = .ok (s_started, 0) ∧
    (run_elapsed K1000 s_started [100000]).map (fun r => drained r.2) = .ok 115032 ∧
    align_down 2 (100000 * 44100 / 1000) = 4410000 := by
  refine ⟨by rfl, by rfl, by rfl, by rfl⟩

/-- C1, amended. Jitter-invariance without 32-bit wrap: for a stream prepared
with a nonzero buffer and a period that is a multiple of the sample alignment
with `period_size * HZ < 2^32`, then started, every sequence of callbacks with
positive elapsed counts, none of which wraps the 32-bit scaled position, runs
to completion and drains in total `floor(N * bytes_per_second / HZ)` rounded
down to the sample alignment, `N` being the sum of the elapsed counts. -/
theorem jitter_invariance_no_wrap (K : Env) (runtime : snd_pcm_runtime) (s0 s1 s2 : State)
    (now : Nat) (es : List Nat)
    (hp : vsnd_prepare runtime s0 = (s1, 0)) (hnow : now < 18446744073709551616)
    (hs : vsnd_trigger K now SNDRV_PCM_TRIGGER_START s1 = .ok (s2, 0))
    (hB : s1.pcm.pcm_buffer_size ≠ 0)
    (hal : s1.pcm.pcm_salign ∣ s1.pcm.pcm_period_size)
    (hF : s1.pcm.pcm_period_size * K.HZ < 4294967296)
    (hpos : ∀ e ∈ es, 0 < e)
    (hnw : no_wrap (s1.pcm.pcm_period_size * K.HZ) s1.pcm.pcm_bps 0 es = true) :
    ∃ s3 os, run_elapsed K s2 es = .ok (s3, os) ∧
      drained os = align_down s1.pcm.pcm_salign (es.sum * s1.pcm.pcm_bps / K.HZ) := by
  obtain ⟨inv, ⟨g1, g2, g3, g4⟩, hirq, _, hr, hpa, _, _⟩ := start_inv hp hnow hs
  obtain ⟨s3, os, hrun, _, _, _, _, hd, _⟩ := run_elapsed_spec es s2 0 inv hr hpa
    (by rw [g1]; exact hB) (by rw [g2]; exact hF) (by rw [g2, g4]; exact hal)
    (by rw [hirq]; simp) hpos (by rw [g2, g3, hirq]; exact hnw)
  refine ⟨s3, os, hrun, ?_⟩
  rw [hd, g3, g4]
  simp [byte_pos, align_down]

/-- C1, witness: three jittered callbacks (10, 20 and 17 ticks) on the default
stream. -/
theorem jitter_invariance_no_wrap_witness :
    ∃ s3 os, run_elapsed K1000 s_started [10, 20, 17] = .ok (s3, os) ∧
      drained os = align_down s_prepared.pcm.pcm_salign
        ([10, 20, 17].sum * s_prepared.pcm.pcm_bps / K1000.HZ) :=
  jitter_invariance_no_wrap K1000 (rt_default 2048 512) s_opened s_prepared s_started 5000
    [10, 20, 17] (by rfl) (by norm_num) (by rfl) (by decide) (by decide) (by decide)
    (by decide) (by rfl)

theorem scenario_arith {N HZ : Nat} (hHZ : 0 < HZ) (h : align_down 2 (N * 44100 / HZ) = 2048) :
    N * 44100 / (2048 * HZ) = 1 := by
  unfold align_down at h
  have hy : 2048 ≤ N * 44100 / HZ ∧ N * 44100 / HZ < 2050 := by omega
  have h1 := (Nat.le_div_iff_mul_le hHZ).1 hy.1
  have h2 := (Nat.div_lt_iff_lt_mul hHZ).1 hy.2
  exact Nat.div_eq_of_lt_le (by omega) (by omega)

/-- C2, counterexample. On the stream of the claim (8192/2048 bytes,
alignment 2, 44100 bytes per second, `HZ = 1000`) one callback that comes
after 100 ticks advances the scaled position by two full periods (4410 bytes
are drained) and raises one notification, where the claim promises two. -/
theorem one_notification_for_two_periods :
    vsnd_prepare (rt_default 4096 1024) s_opened = (s_prepared_8192, 0) ∧
    vsnd_trigger K1000 5000 SNDRV_PCM_TRIGGER_START s_prepared_8192 = .ok (s_started_8192, 0) ∧
    (run_elapsed K1000 s_started_8192 [100]).map (fun r => (drained r.2, notifications r.2))
      = .ok (4410, 1) ∧
    100 * 44100 / (2048 * 1000) = 2 := by
  refine ⟨by rfl, by rfl, by rfl, by rfl⟩

/-- C2, amended. For a prepared and started stream and callbacks that do not
wrap 32 bits, a callback raises at most one period-elapsed notification, so
the number of notifications is at most the number of full periods
`floor(N * bytes_per_second / (period_size * HZ))`, is positive as soon as one
full period was drained, and equals the number of full periods when no single
callback spans more than one period. In the scenario of the claim (alignment
2, 44100 bytes per second, 8192/2048 bytes), when exactly 2048 bytes have been
drained exactly one notification was raised and the cursor is 2048. -/
theorem notifications_per_period (K : Env) (runtime : snd_pcm_runtime) (s0 s1 s2 : State)
    (now : Nat) (es : List Nat)
    (hp : vsnd_prepare runtime s0 = (s1, 0)) (hnow : now < 18446744073709551616)
    (hs : vsnd_trigger K now SNDRV_PCM_TRIGGER_START s1 = .ok (s2, 0))
    (hB : s1.pcm.pcm_buffer_size ≠ 0)
    (hal : s1.pcm.pcm_salign ∣ s1.pcm.pcm_period_size)
    (hF : s1.pcm.pcm_period_size * K.HZ < 4294967296)
    (hpos : ∀ e ∈ es, 0 < e)
    (hnw : no_wrap (s1.pcm.pcm_period_size * K.HZ) s1.pcm.pcm_bps 0 es = true) :
    ∃ s3 os, run_elapsed K s2 es = .ok (s3, os) ∧
      notifications os ≤ es.sum * s1.pcm.pcm_bps / (s1.pcm.pcm_period_size * K.HZ) ∧
      (0 < es.sum * s1.pcm.pcm_bps / (s1.pcm.pcm_period_size * K.HZ) → 0 < notifications os) ∧
      (single_period (s1.pcm.pcm_period_size * K.HZ) s1.pcm.pcm_bps 0 es = true →
        notifications os = es.sum * s1.pcm.pcm_bps / (s1.pcm.pcm_period_size * K.HZ)) ∧
      (s1.pcm.pcm_salign = 2 → s1.pcm.pcm_bps = 44100 → s1.pcm.pcm_buffer_size = 8192 →
        s1.pcm.pcm_period_size = 2048 → drained os = 2048 →
        notifications os = 1 ∧ s3.pcm.buf_pos = 2048) := by
  obtain ⟨inv, ⟨g1, g2, g3, g4⟩, hirq, hbuf, hr, hpa, _, _⟩ := start_inv hp hnow hs
  have hrun := run_elapsed_spec es s2 0 inv hr hpa
    (by rw [g1]; exact hB) (by rw [g2]; exact hF) (by rw [g2, g4]; exact hal)
    (by rw [hirq]; simp) hpos (by rw [g2, g3, hirq]; exact hnw)
  rw [g1, g2, g3, g4, hirq, hbuf] at hrun
  simp only [Nat.zero_add, Nat.zero_div, Nat.sub_zero] at hrun
  obtain ⟨s3, os, hrun, _, _, _, _, hd, i3, i4, i5, i6⟩ := hrun
  refine ⟨s3, os, hrun, i3, i4, i5, ?_⟩
  intro e1 e2 e3 e4 e5
  have hHZ : 0 < K.HZ := Nat.pos_of_ne_zero inv.hz
  rw [e1, e2, e5] at hd
  have hbp : byte_pos K.HZ 2 0 = 0 := by simp [byte_pos, align_down]
  rw [hbp, Nat.sub_zero] at hd
  have hq := scenario_arith hHZ hd.symm
  rw [e2, e4, hq] at i3 i4
  rw [e3, e5] at i6
  refine ⟨Nat.le_antisymm i3 (i4 (by norm_num)), ?_⟩
  rw [i6 (by norm_num)]

/-- C2, witness: three callbacks of 30, 30 and 40 ticks on the stream of the
claim; none spans more than one period. -/
theorem notifications_per_period_witness :
    ∃ s3 os, run_elapsed K1000 s_started_8192 [30, 30, 40] = .ok (s3, os) ∧
      notifications os ≤ [30, 30, 40].sum * s_prepared_8192.pcm.pcm_bps
          / (s_prepared_8192.pcm.pcm_period_size * K1000.HZ) ∧
      (0 < [30, 30, 40].sum * s_prepared_8192.pcm.pcm_bps
          / (s_prepared_8192.pcm.pcm_period_size * K1000.HZ) → 0 < notifications os) ∧
      (single_period (s_prepared_8192.pcm.pcm_period_size * K1000.HZ)
          s_prepared_8192.pcm.pcm_bps 0 [30, 30, 40] = true →
        notifications os = [30, 30, 40].sum * s_prepared_8192.pcm.pcm_bps
          / (s_prepared_8192.pcm.pcm_period_size * K1000.HZ)) ∧
      (s_prepared_8192.pcm.pcm_salign = 2 → s_prepared_8192.pcm.pcm_bps = 44100 →
        s_prepared_8192.pcm.pcm_buffer_size = 8192 →
        s_prepared_8192.pcm.pcm_period_size = 2048 → drained os = 2048 →
        notifications os = 1 ∧ s3.pcm.buf_pos = 2048) :=
  notifications_per_period K1000 (rt_default 4096 1024) s_opened s_prepared_8192 s_started_8192
    5000 [30, 30, 40] (by rfl) (by norm_num) (by rfl) (by decide) (by decide) (by decide)
    (by decide) (by rfl)

theorem vsnd_trigger_stop (K : Env) (now : Nat) (s : State) :
    vsnd_trigger K now SNDRV_PCM_TRIGGER_STOP s =
      .ok ({ vsnd := { s.vsnd with running := false, paused := false },
             pcm := vsnd_timer_delete s.pcm false }, 0) := by
  rfl

theorem vsnd_trigger_start (K : Env) (now : Nat) (s : State) :
    vsnd_trigger K now SNDRV_PCM_TRIGGER_START s =
      match vsnd_timer_set K.HZ now { s.pcm with last_jiffies := now, last_drift := 0 } with
      | .error f => .error f
      | .ok p2 => .ok ({ vsnd := { s.vsnd with running := true, paused := false }, pcm := p2 }, 0) := by
  rfl

theorem vsnd_timer_set_timer (HZ jiffies : Nat) (p : vsnd_pcm) (t : timer_list) :
    vsnd_timer_set HZ jiffies { p with timer := t } = vsnd_timer_set HZ jiffies p := by
  simp only [vsnd_timer_set, mod_timer]
  split_ifs <;> rfl

theorem started_s_started : Started K1000 s_started :=
  @Started.start K1000 (rt_default 2048 512) s_opened s_prepared s_started 5000
    (by rfl) (by norm_num) (by rfl)

theorem started_s_after19 : Started K1000 s_after19 :=
  @Started.tick K1000 s_started s_after19 5019
    { writes := [{ fp := some 7, off := 0, size := 836, ret := 836 }], period_elapsed := false }
    started_s_started (by norm_num) (by rfl)

/-- C3, counterexample. The default stream, one callback after 19 ticks, then
Stop and Start: the scaled position and the cursor are still 837900 and 836,
not zero, and the next callback one tick later drains 46 bytes where the
freshly prepared and started stream drains 44. -/
theorem stop_start_keeps_position :
    (run_elapsed K1000 s_started [19]).map Prod.fst = .ok s_after19 ∧
    vsnd_trigger K1000 5019 SNDRV_PCM_TRIGGER_STOP s_after19 = .ok (s_stopped19, 0) ∧
    vsnd_trigger K1000 6000 SNDRV_PCM_TRIGGER_START s_stopped19 = .ok (s_restarted, 0) ∧
    s_restarted.pcm.irq_pos = 837900 ∧ s_restarted.pcm.buf_pos = 836 ∧
    (run_elapsed K1000 s_restarted [1]).map (fun r => drained r.2) = .ok 46 ∧
    (run_elapsed K1000 s_started [1]).map (fun r => drained r.2) = .ok 44 := by
  refine ⟨by rfl, by rfl, by rfl, by rfl, by rfl, by rfl, by rfl⟩

/-- C3, amended. Stop followed by Start on a started stream returns, resets
`last_drift` to 0 and `last_jiffies` to the time of Start, and keeps `buf_pos`
and `irq_pos` as they were (it does not zero them). When both were 0 at Stop,
the state after Start is exactly the state that preparing the stream afresh
with the same geometry and starting it at the same time gives, so every later
sequence of callbacks behaves the same. -/
theorem stop_start_resets_drift_only (K : Env) (runtime : snd_pcm_runtime) (s s1 : State)
    (t1 t2 : Nat) (hst : Started K s) (ht2 : t2 < 18446744073709551616)
    (hp : vsnd_prepare runtime s = (s1, 0)) (hg : same_geometry s s1) :
    ∃ sa sb, vsnd_trigger K t1 SNDRV_PCM_TRIGGER_STOP s = .ok (sa, 0) ∧
      vsnd_trigger K t2 SNDRV_PCM_TRIGGER_START sa = .ok (sb, 0) ∧
      sb.pcm.last_drift = 0 ∧ sb.pcm.last_jiffies = t2 ∧
      sb.pcm.buf_pos = s.pcm.buf_pos ∧ sb.pcm.irq_pos = s.pcm.irq_pos ∧
      (s.pcm.buf_pos = 0 → s.pcm.irq_pos = 0 →
        ∃ sf, vsnd_trigger K t2 SNDRV_PCM_TRIGGER_START s1 = .ok (sf, 0) ∧
          ∀ es, run_elapsed K sb es = run_elapsed K sf es) := by
  have inv := started_inv hst
  have inva : ClockInv K { vsnd := { s.vsnd with running := false, paused := false },
                           pcm := vsnd_timer_delete s.pcm false } :=
    clockinv_timer_delete inv false
  obtain ⟨sb, r, hsb⟩ := trigger_total t2 SNDRV_PCM_TRIGGER_START inva
  have hsb' := hsb
  rw [vsnd_trigger_start] at hsb'
  split at hsb'
  · cases hsb'
  · rename_i p2 hts
    simp only [Except.ok.injEq, Prod.mk.injEq] at hsb'
    obtain ⟨hsb1, hsb2⟩ := hsb'
    subst hsb2
    obtain ⟨inv2, _, h3, h4, h5, _⟩ :=
      clockinv_timer_set (v := { s.vsnd with running := true, paused := false }) inva ht2 hts
    refine ⟨_, sb, vsnd_trigger_stop K t1 s, hsb, ?_, ?_, ?_, ?_, ?_⟩
    · rw [← hsb1]; exact inv2.drift
    · rw [← hsb1]; exact h5
    · rw [← hsb1]; exact h3
    · rw [← hsb1]; exact h4
    · intro hb0 hi0
      refine ⟨sb, ?_, fun _ => rfl⟩
      obtain ⟨_, _, a3, a4⟩ := vsnd_prepare_inv hp
      obtain ⟨e1, e2, e3, e4⟩ := hg
      have hpcm : s1.pcm = vsnd_timer_delete s.pcm true := by
        rw [a4] at e1 e2 e3 e4
        simp only [] at e1 e2 e3 e4
        rw [a4]
        have hpd := inv.pending
        obtain ⟨v, ⟨B, bp, ss, P, bps, sal, pup, irq, frac, dr, lj, tm⟩⟩ := s
        simp only [] at hb0 hi0 hpd e1 e2 e3 e4
        subst hb0 hi0 hpd
        simp [vsnd_timer_delete, e1, e2, e3, e4]
      rw [vsnd_trigger_start, hpcm, a3]
      have hin : ({ vsnd_timer_delete s.pcm true with last_jiffies := t2, last_drift := 0 } : vsnd_pcm)
          = { ({ vsnd_timer_delete s.pcm false with last_jiffies := t2, last_drift := 0 } : vsnd_pcm)
              with timer := { s.pcm.timer with pending := false } } := by
        rfl
      rw [hin, vsnd_timer_set_timer]
      simp only [] at hts
      rw [hts, ← hsb1]

/-- C3, witness: the stream `s_after19`, 19 ticks after Start. -/
theorem stop_start_resets_drift_only_witness :
    ∃ sa sb, vsnd_trigger K1000 5019 SNDRV_PCM_TRIGGER_STOP s_after19 = .ok (sa, 0) ∧
      vsnd_trigger K1000 6000 SNDRV_PCM_TRIGGER_START sa = .ok (sb, 0) ∧
      sb.pcm.last_drift = 0 ∧ sb.pcm.last_jiffies = 6000 ∧
      sb.pcm.buf_pos = s_after19.pcm.buf_pos ∧ sb.pcm.irq_pos = s_after19.pcm.irq_pos ∧
      (s_after19.pcm.buf_pos = 0 → s_after19.pcm.irq_pos = 0 →
        ∃ sf, vsnd_trigger K1000 6000 SNDRV_PCM_TRIGGER_START
            (vsnd_prepare (rt_default 2048 512) s_after19).1 = .ok (sf, 0) ∧
          ∀ es, run_elapsed K1000 sb es = run_elapsed K1000 sf es) :=
  stop_start_resets_drift_only K1000 (rt_default 2048 512) s_after19
    (vsnd_prepare (rt_default 2048 512) s_after19).1 5019 6000
    started_s_after19
    (by norm_num) (by rfl) ⟨rfl, rfl, rfl, rfl⟩

/-- C4, counterexample. The default stream is started at jiffies 5000 with the
timer armed for 5024. At jiffies 5024 it receives Stop and then PAUSE_PUSH,
Pause issued from Stopped: `running = 0`, `paused = 1`, so `running ^ paused`
is 1. The callback due at 5024 then drains 1058 bytes, moves `buf_pos` from 0
to 1058 (the pointer from frame 0 to frame 529), raises a period notification
and arms the timer again. -/
theorem tick_runs_when_paused_from_stopped :
    s_started.pcm.timer = { pending := true, expires := 5024 } ∧
    vsnd_trigger K1000 5024 SNDRV_PCM_TRIGGER_STOP s_started = .ok (s_stopped, 0) ∧
    vsnd_trigger K1000 5024 SNDRV_PCM_TRIGGER_PAUSE_PUSH s_stopped = .ok (s_stop_paused, 0) ∧
    s_stop_paused.vsnd.running = false ∧ s_stop_paused.vsnd.paused = true ∧
    vsnd_pointer (rt_default 2048 512) s_stop_paused = .ok 0 ∧
    (vsnd_timer_elapsed K1000 5024 s_stop_paused).map
        (fun r => (r.1.pcm.buf_pos, r.1.pcm.irq_pos, r.1.pcm.timer, r.2.bytes,
                   r.2.period_elapsed, vsnd_pointer (rt_default 2048 512) r.1))
      = .ok (1058, 34400, { pending := true, expires := 5047 }, 1058, true, .ok 529) := by
  refine ⟨by rfl, by rfl, by rfl, by rfl, by rfl, by rfl, by rfl⟩

/-- C4, amended. Pointer is unchanged while `running ^ paused` is 0, that is
while Stopped (`running = 0`, `paused = 0`) or Paused from Running
(`running = 1`, `paused = 1`): in every such state `vsnd_pos_update` returns 0
and writes nothing, and the callback leaves the whole state as it was
(`buf_pos`, `irq_pos`, `period_update_pending` and the timer, which is not
armed again) and raises no notification, so `vsnd_pointer` returns the same
value before and after. Stop issued in any state leads to such a state with
the timer cancelled, and so does Pause (PAUSE_PUSH / SUSPEND) issued in any
state with `running = 1`. Pause issued in a state with `running = 0` succeeds
too but leaves `running ^ paused = 1`. -/
theorem pointer_unchanged_when_idle (K : Env) (now jiffies : Nat) (cmd : Int)
    (runtime : snd_pcm_runtime) (s : State) :
    (xor s.vsnd.running s.vsnd.paused = false →
      vsnd_pos_update K jiffies s = .ok (s, false, []) ∧
      vsnd_timer_elapsed K jiffies s = .ok (s, { writes := [], period_elapsed := false }) ∧
      (vsnd_timer_elapsed K jiffies s).map (fun r => vsnd_pointer runtime r.1)
        = .ok (vsnd_pointer runtime s)) ∧
    (∃ s', vsnd_trigger K now SNDRV_PCM_TRIGGER_STOP s = .ok (s', 0) ∧
      s'.vsnd.running = false ∧ s'.vsnd.paused = false ∧ s'.pcm.timer.pending = false ∧
      vsnd_timer_elapsed K jiffies s' = .ok (s', { writes := [], period_elapsed := false })) ∧
    (cmd = SNDRV_PCM_TRIGGER_PAUSE_PUSH ∨ cmd = SNDRV_PCM_TRIGGER_SUSPEND →
      s.vsnd.running = true →
      ∃ s', vsnd_trigger K now cmd s = .ok (s', 0) ∧
        s'.vsnd.running = true ∧ s'.vsnd.paused = true ∧ s'.pcm.timer.pending = false ∧
        vsnd_timer_elapsed K jiffies s' = .ok (s', { writes := [], period_elapsed := false })) ∧
    (cmd = SNDRV_PCM_TRIGGER_PAUSE_PUSH ∨ cmd = SNDRV_PCM_TRIGGER_SUSPEND →
      s.vsnd.running = false →
      ∃ s', vsnd_trigger K now cmd s = .ok (s', 0) ∧
        xor s'.vsnd.running s'.vsnd.paused = true) := by
  have hpause : ∀ c : Int, c = SNDRV_PCM_TRIGGER_PAUSE_PUSH ∨ c = SNDRV_PCM_TRIGGER_SUSPEND →
      vsnd_trigger K now c s =
        .ok ({ vsnd := { s.vsnd with paused := true },
               pcm := vsnd_timer_delete s.pcm false }, 0) := by
    intro c hc
    rcases hc with hc | hc <;> subst hc <;> rfl
  refine ⟨fun hx => ⟨vsnd_pos_update_idle K jiffies s hx, ?_, ?_⟩, ?_, ?_, ?_⟩
  · exact vsnd_timer_elapsed_idle K jiffies s hx
  · rw [vsnd_timer_elapsed_idle K jiffies s hx]
    rfl
  · refine ⟨_, rfl, rfl, rfl, rfl, ?_⟩
    exact vsnd_timer_elapsed_idle K jiffies _ rfl
  · intro hc hr
    refine ⟨_, hpause cmd hc, hr, rfl, rfl, ?_⟩
    apply vsnd_timer_elapsed_idle
    simp [hr]
  · intro hc hr
    refine ⟨_, hpause cmd hc, ?_⟩
    simp [hr]

/-- C4, witness: the stopped default stream for the idle callback, the started
default stream for Stop and Pause from Running, the stopped one for Pause from
Stopped. -/
theorem pointer_unchanged_when_idle_witness :
    (vsnd_pos_update K1000 5024 s_stopped = .ok (s_stopped, false, []) ∧
      vsnd_timer_elapsed K1000 5024 s_stopped
        = .ok (s_stopped, { writes := [], period_elapsed := false }) ∧
      (vsnd_timer_elapsed K1000 5024 s_stopped).map
          (fun r => vsnd_pointer (rt_default 2048 512) r.1)
        = .ok (vsnd_pointer (rt_default 2048 512) s_stopped)) ∧
    (∃ s', vsnd_trigger K1000 5010 SNDRV_PCM_TRIGGER_STOP s_started = .ok (s', 0) ∧
      s'.vsnd.running = false ∧ s'.vsnd.paused = false ∧ s'.pcm.timer.pending = false ∧
      vsnd_timer_elapsed K1000 5024 s' = .ok (s', { writes := [], period_elapsed := false })) ∧
    (∃ s', vsnd_trigger K1000 5010 SNDRV_PCM_TRIGGER_SUSPEND s_started = .ok (s', 0) ∧
      s'.vsnd.running = true ∧ s'.vsnd.paused = true ∧ s'.pcm.timer.pending = false ∧
      vsnd_timer_elapsed K1000 5024 s' = .ok (s', { writes := [], period_elapsed := false })) ∧
    (∃ s', vsnd_trigger K1000 5024 SNDRV_PCM_TRIGGER_PAUSE_PUSH s_stopped = .ok (s', 0) ∧
      xor s'.vsnd.running s'.vsnd.paused = true) :=
  ⟨(pointer_unchanged_when_idle K1000 5024 5024 SNDRV_PCM_TRIGGER_STOP (rt_default 2048 512)
      s_stopped).1 (by rfl),
   (pointer_unchanged_when_idle K1000 5010 5024 SNDRV_PCM_TRIGGER_STOP (rt_default 2048 512)
      s_started).2.1,
   (pointer_unchanged_when_idle K1000 5010 5024 SNDRV_PCM_TRIGGER_SUSPEND (rt_default 2048 512)
      s_started).2.2.1 (Or.inr rfl) (by rfl),
   (pointer_unchanged_when_idle K1000 5024 5024 SNDRV_PCM_TRIGGER_PAUSE_PUSH (rt_default 2048 512)
      s_stopped).2.2.2 (Or.inl rfl) (by rfl)⟩

theorem vsnd_pos_calc_jiffies (HZ : Nat) (p : vsnd_pcm) (e lj : Nat) :
    vsnd_pos_calc HZ { p with last_jiffies := lj } e =
      (vsnd_pos_calc HZ p e).map (fun r => ({ r.1 with last_jiffies := lj }, r.2)) := by
  unfold vsnd_pos_calc byte_pos_calc
  by_cases hHZ : HZ = 0
  · simp [hHZ, Except.map]
  · by_cases ha : p.pcm_salign = 0
    · simp [hHZ, ha, Except.map]
    · simp only [hHZ, ha, if_false]
      split_ifs <;> rfl

theorem vsnd_pos_calc_timer (HZ : Nat) (p : vsnd_pcm) (e : Nat) (t : timer_list) :
    vsnd_pos_calc HZ { p with timer := t } e =
      (vsnd_pos_calc HZ p e).map (fun r => ({ r.1 with timer := t }, r.2)) := by
  unfold vsnd_pos_calc byte_pos_calc
  by_cases hHZ : HZ = 0
  · simp [hHZ, Except.map]
  · by_cases ha : p.pcm_salign = 0
    · simp [hHZ, ha, Except.map]
    · simp only [hHZ, ha, if_false]
      split_ifs <;> rfl

theorem vsnd_pos_calc_total {HZ : Nat} {p : vsnd_pcm} (e : Nat) (hHZ : HZ ≠ 0)
    (ha : p.pcm_salign ≠ 0) (hF : p.period_size_frac ≠ 0) :
    ∃ q b, vsnd_pos_calc HZ p e = .ok (q, b) := by
  unfold vsnd_pos_calc
  rw [byte_pos_calc_ok hHZ ha]
  simp only []
  rw [byte_pos_calc_ok hHZ (by simpa using ha)]
  simp only [hF, if_false]
  split_ifs <;> exact ⟨_, _, rfl⟩

/-- A callback of a started stream with `running ^ paused = 1`, a nonzero
elapsed count and a nonzero buffer returns, and what it drains and where it
leaves both positions is what `vsnd_pos_calc` computes. -/
theorem tick_processed {K : Env} {s : State} {now : Nat} (inv : ClockInv K s)
    (hx : xor s.vsnd.running s.vsnd.paused = true) (he : elapsed_ticks now s ≠ 0)
    (hB : s.pcm.pcm_buffer_size ≠ 0) :
    ∃ p b s' o, vsnd_pos_calc K.HZ s.pcm (elapsed_ticks now s) = .ok (p, b) ∧
      vsnd_timer_elapsed K now s = .ok (s', o) ∧ o.bytes = b ∧
      s'.pcm.irq_pos = p.irq_pos ∧
      s'.pcm.buf_pos = ((s.pcm.buf_pos + b) % 4294967296) % s.pcm.pcm_buffer_size ∧
      o.period_elapsed = p.period_update_pending := by
  have hFne : s.pcm.period_size_frac ≠ 0 := by have := inv.irq; omega
  obtain ⟨p, b, hcalc⟩ := vsnd_pos_calc_total (elapsed_ticks now s) inv.hz inv.salign hFne
  obtain ⟨hshape, g2, _, hb32, _, _⟩ := vsnd_pos_calc_shape hcalc
  obtain ⟨f1, f2, _, f4, f5, _, f7, _, _, _⟩ := vsnd_pos_calc_frame hcalc
  have hcalc' := vsnd_pos_calc_jiffies K.HZ s.pcm (elapsed_ticks now s)
    ((s.pcm.last_jiffies + elapsed_ticks now s) % 18446744073709551616)
  rw [hcalc] at hcalc'
  simp only [Except.map] at hcalc'
  have hBpos : 0 < s.pcm.pcm_buffer_size := Nat.pos_of_ne_zero hB
  have hfuel : (s.pcm.buf_pos + b) / s.pcm.pcm_buffer_size + 1
      ≤ 4294967296 / s.pcm.pcm_buffer_size + 3 := by
    have h1 : (s.pcm.buf_pos + b) / s.pcm.pcm_buffer_size
        ≤ (s.pcm.pcm_buffer_size + 4294967296) / s.pcm.pcm_buffer_size :=
      Nat.div_le_div_right (Nat.add_le_add (Nat.le_of_lt (inv.buf hB)) (Nat.le_of_lt hb32))
    rw [Nat.add_div_left _ hBpos] at h1
    exact Nat.add_le_add_right (Nat.le_succ_of_le h1) 1
  obtain ⟨log, hloop, hlog⟩ := drain_loop_ok (K.kernel_write now) s.vsnd.fifo_fp hBpos inv.buf32
    _ _ _ [] (inv.buf hB) hb32 hfuel
  have hu := vsnd_pos_update_run K now s hx he
  rw [hcalc'] at hu
  simp only [f1, f2, hloop, hB, if_false] at hu
  have hirq' : p.irq_pos < (s.pcm.pcm_period_size * K.HZ) % 4294967296 := by
    rw [← inv.frac]; exact g2 hFne
  obtain ⟨t, ht⟩ := vsnd_timer_elapsed_of_update hu
    (by simp only [f4]; exact hirq') (by simp only [f5]; exact inv.bps)
  refine ⟨p, b, _, _, hcalc, ht, ?_, rfl, rfl, rfl⟩
  simp only [TickOut.bytes]
  simpa [log_bytes] using hlog

theorem vsnd_trigger_pause (K : Env) (now : Nat) (cmd : Int) (s : State)
    (h : cmd = SNDRV_PCM_TRIGGER_PAUSE_PUSH ∨ cmd = SNDRV_PCM_TRIGGER_SUSPEND) :
    vsnd_trigger K now cmd s =
      .ok ({ vsnd := { s.vsnd with paused := true }, pcm := vsnd_timer_delete s.pcm false }, 0) := by
  rcases h with h | h <;> subst h <;> rfl

theorem vsnd_trigger_resume (K : Env) (now : Nat) (cmd : Int) (s : State)
    (h : cmd = SNDRV_PCM_TRIGGER_PAUSE_RELEASE ∨ cmd = SNDRV_PCM_TRIGGER_RESUME) :
    vsnd_trigger K now cmd s =
      match vsnd_timer_set K.HZ now { s.pcm with last_jiffies := now } with
      | .error f => .error f
      | .ok p2 => .ok ({ vsnd := { s.vsnd with paused := false }, pcm := p2 }, 0) := by
  rcases h with h | h <;> subst h <;> rfl

theorem pcm_frac_eq {p : vsnd_pcm} {F : Nat} (h : p.period_size_frac = F) (lj : Nat)
    (t : timer_list) :
    ({ ({ p with last_jiffies := lj } : vsnd_pcm) with period_size_frac := F, timer := t }
      : vsnd_pcm) = { ({ p with last_jiffies := lj } : vsnd_pcm) with timer := t } := by
  subst h
  rfl

/-- C5. Pause (PAUSE_PUSH or SUSPEND) at any time followed by Resume
(PAUSE_RELEASE or RESUME) at jiffies `t2`, on a state of a prepared and started
stream whose `running` bit is set (every Running state is one): both commands return success, `buf_pos` and `irq_pos` are what
they were before Pause and `last_jiffies` is `t2`. The callback that runs `e`
ticks after Resume computes the elapsed count `e`, and what it drains and where
it leaves both positions is what `vsnd_pos_calc` gives on the state before
Pause with `delta = e`: nothing depends on the time of Pause. -/
theorem pause_resume_preserves_position (K : Env) (s : State) (cmdp cmdr : Int) (t1 t2 e : Nat)
    (hst : Started K s) (hr : s.vsnd.running = true)
    (hcp : cmdp = SNDRV_PCM_TRIGGER_PAUSE_PUSH ∨ cmdp = SNDRV_PCM_TRIGGER_SUSPEND)
    (hcr : cmdr = SNDRV_PCM_TRIGGER_PAUSE_RELEASE ∨ cmdr = SNDRV_PCM_TRIGGER_RESUME)
    (ht2 : t2 < 18446744073709551616) (he0 : 0 < e) (he : e < 4294967296) :
    ∃ s1 s2, vsnd_trigger K t1 cmdp s = .ok (s1, 0) ∧ vsnd_trigger K t2 cmdr s1 = .ok (s2, 0) ∧
      s2.pcm.buf_pos = s.pcm.buf_pos ∧ s2.pcm.irq_pos = s.pcm.irq_pos ∧
      s2.pcm.last_jiffies = t2 ∧
      elapsed_ticks ((t2 + e) % 18446744073709551616) s2 = e ∧
      ∃ p b, vsnd_pos_calc K.HZ s.pcm e = .ok (p, b) ∧
        (s.pcm.pcm_buffer_size ≠ 0 →
          ∃ s3 o, vsnd_timer_elapsed K ((t2 + e) % 18446744073709551616) s2 = .ok (s3, o) ∧
            o.bytes = b ∧ s3.pcm.irq_pos = p.irq_pos ∧
            s3.pcm.buf_pos = ((s.pcm.buf_pos + b) % 4294967296) % s.pcm.pcm_buffer_size) := by
  have inv := started_inv hst
  have inv1 : ClockInv K { vsnd := { s.vsnd with paused := true },
                           pcm := vsnd_timer_delete s.pcm false } :=
    clockinv_timer_delete inv false
  have hF : s.pcm.irq_pos < (s.pcm.pcm_period_size * K.HZ) % 4294967296 := by
    have := inv.irq; rw [inv.frac] at this; exact this
  obtain ⟨t, ht⟩ := vsnd_timer_set_ok t2
    (p := { vsnd_timer_delete s.pcm false with last_jiffies := t2 }) hF inv.bps
  have hfr : (vsnd_timer_delete s.pcm false).period_size_frac
      = (s.pcm.pcm_period_size * K.HZ) % 4294967296 := inv.frac
  have ht' : vsnd_timer_set K.HZ t2 { vsnd_timer_delete s.pcm false with last_jiffies := t2 }
      = .ok { s.pcm with last_jiffies := t2, timer := t } := by
    rw [ht]
    exact congrArg Except.ok (pcm_frac_eq hfr t2 t)
  have hs2 : vsnd_trigger K t2 cmdr { vsnd := { s.vsnd with paused := true },
                                      pcm := vsnd_timer_delete s.pcm false }
      = .ok ({ vsnd := { s.vsnd with paused := false },
               pcm := { s.pcm with last_jiffies := t2, timer := t } }, 0) := by
    rw [vsnd_trigger_resume K t2 cmdr _ hcr]
    simp only [ht']
  have inv2 : ClockInv K { vsnd := { s.vsnd with paused := false },
                           pcm := { s.pcm with last_jiffies := t2, timer := t } } :=
    (trigger_inv inv1 ht2 hs2).1
  have hel : elapsed_ticks ((t2 + e) % 18446744073709551616)
      { vsnd := { s.vsnd with paused := false },
        pcm := { s.pcm with last_jiffies := t2, timer := t } } = e :=
    elapsed_ticks_eq (s := { vsnd := { s.vsnd with paused := false },
                             pcm := { s.pcm with last_jiffies := t2, timer := t } }) ht2 he
  have hFne : s.pcm.period_size_frac ≠ 0 := by have := inv.irq; omega
  obtain ⟨p, b, hcalc⟩ := vsnd_pos_calc_total e inv.hz inv.salign hFne
  refine ⟨_, _, vsnd_trigger_pause K t1 cmdp s hcp, hs2, rfl, rfl, rfl, hel, p, b, hcalc, ?_⟩
  intro hB
  obtain ⟨p', b', s3, o, h1, h2, h3, h4, h5, _⟩ := @tick_processed K _
    ((t2 + e) % 18446744073709551616) inv2 (by simp [hr]) (by rw [hel]; omega) hB
  rw [hel] at h1
  have h1' := vsnd_pos_calc_timer K.HZ { s.pcm with last_jiffies := t2 } e t
  rw [vsnd_pos_calc_jiffies, hcalc] at h1'
  simp only [Except.map] at h1'
  simp only [] at h1
  rw [h1'] at h1
  simp only [Except.ok.injEq, Prod.mk.injEq] at h1
  obtain ⟨h1a, h1b⟩ := h1
  refine ⟨s3, o, h2, by rw [h3, h1b], by rw [h4, ← h1a], by rw [h5, h1b]⟩

/-- C5, witness: the default stream 19 ticks after Start is paused at jiffies
5030, resumed at jiffies 9000 and ticks 5 ticks later. -/
theorem pause_resume_preserves_position_witness :
    ∃ s1 s2, vsnd_trigger K1000 5030 SNDRV_PCM_TRIGGER_PAUSE_PUSH s_after19 = .ok (s1, 0) ∧
      vsnd_trigger K1000 9000 SNDRV_PCM_TRIGGER_PAUSE_RELEASE s1 = .ok (s2, 0) ∧
      s2.pcm.buf_pos = s_after19.pcm.buf_pos ∧ s2.pcm.irq_pos = s_after19.pcm.irq_pos ∧
      s2.pcm.last_jiffies = 9000 ∧
      elapsed_ticks ((9000 + 5) % 18446744073709551616) s2 = 5 ∧
      ∃ p b, vsnd_pos_calc K1000.HZ s_after19.pcm 5 = .ok (p, b) ∧
        (s_after19.pcm.pcm_buffer_size ≠ 0 →
          ∃ s3 o, vsnd_timer_elapsed K1000 ((9000 + 5) % 18446744073709551616) s2 = .ok (s3, o) ∧
            o.bytes = b ∧ s3.pcm.irq_pos = p.irq_pos ∧
            s3.pcm.buf_pos = ((s_after19.pcm.buf_pos + b) % 4294967296)
                               % s_after19.pcm.pcm_buffer_size) :=
  pause_resume_preserves_position K1000 s_after19 SNDRV_PCM_TRIGGER_PAUSE_PUSH
    SNDRV_PCM_TRIGGER_PAUSE_RELEASE 5030 9000 5
    started_s_after19
    (by rfl) (Or.inl rfl) (Or.inl rfl) (by norm_num) (by norm_num) (by norm_num)

/-- What a trigger command leaves alone. -/
theorem trigger_frame {K : Env} {now : Nat} {cmd r : Int} {s s' : State}
    (h : vsnd_trigger K now cmd s = .ok (s', r)) :
    s'.pcm.pcm_buffer_size = s.pcm.pcm_buffer_size ∧ s'.pcm.buf_pos = s.pcm.buf_pos ∧
    s'.pcm.pcm_salign = s.pcm.pcm_salign ∧ (s.pcm.last_drift = 0 → s'.pcm.last_drift = 0) := by
  unfold vsnd_trigger at h
  split_ifs at h with h1 h2 h3 h4
  · simp only [] at h
    split at h
    · cases h
    · rename_i p2 ht
      simp only [Except.ok.injEq, Prod.mk.injEq] at h
      rw [← h.1]
      obtain ⟨_, _, _, _, h5, h6, _, _, _, h10, _, h12, _⟩ := vsnd_timer_set_inv ht
      exact ⟨h5, h6, h10, fun _ => h12⟩
  · simp only [Except.ok.injEq, Prod.mk.injEq] at h
    rw [← h.1]
    simp [vsnd_timer_delete]
  · simp only [Except.ok.injEq, Prod.mk.injEq] at h
    rw [← h.1]
    simp [vsnd_timer_delete]
  · simp only [] at h
    split at h
    · cases h
    · rename_i p2 ht
      simp only [Except.ok.injEq, Prod.mk.injEq] at h
      rw [← h.1]
      obtain ⟨_, _, _, _, h5, h6, _, _, _, h10, _, h12, _⟩ := vsnd_timer_set_inv ht
      exact ⟨h5, h6, h10, fun h0 => h12.trans h0⟩
  · simp only [Except.ok.injEq, Prod.mk.injEq] at h
    rw [← h.1]
    exact ⟨rfl, rfl, rfl, fun h0 => h0⟩

/-- What the timer callback does when it returns, in two steps. -/
theorem vsnd_timer_elapsed_inv {K : Env} {now : Nat} {s s' : State} {o : TickOut}
    (h : vsnd_timer_elapsed K now s = .ok (s', o)) :
    ∃ s1 r w, vsnd_pos_update K now s = .ok (s1, r, w) ∧ o.writes = w ∧ s'.vsnd = s1.vsnd ∧
      ((r = false ∧ s' = s1) ∨
       (r = true ∧ ∃ p, vsnd_timer_set K.HZ now s1.pcm = .ok p ∧
          o.period_elapsed = p.period_update_pending ∧
          s'.pcm = { p with period_update_pending := false })) := by
  unfold vsnd_timer_elapsed at h
  split at h
  · cases h
  · rename_i s1 r w hu
    refine ⟨s1, r, w, hu, ?_⟩
    cases r
    · simp only [Bool.false_eq_true, if_false, Except.ok.injEq, Prod.mk.injEq] at h
      rw [← h.1, ← h.2]
      exact ⟨rfl, rfl, Or.inl ⟨rfl, rfl⟩⟩
    · simp only [if_true] at h
      split at h
      · cases h
      · rename_i p ht
        cases hp : p.period_update_pending
        · simp only [hp, Bool.false_eq_true, if_false, Except.ok.injEq, Prod.mk.injEq] at h
          rw [← h.1, ← h.2]
          refine ⟨rfl, rfl, Or.inr ⟨rfl, p, ht, hp.symm, ?_⟩⟩
          simp only []
          rw [← hp]
        · simp only [hp, if_true, Except.ok.injEq, Prod.mk.injEq] at h
          rw [← h.1, ← h.2]
          exact ⟨rfl, rfl, Or.inr ⟨rfl, p, ht, hp.symm, rfl⟩⟩

/-- What the timer callback leaves alone. -/
theorem tick_frame {K : Env} {now : Nat} {s s' : State} {o : TickOut}
    (h : vsnd_timer_elapsed K now s = .ok (s', o)) :
    s'.pcm.pcm_buffer_size = s.pcm.pcm_buffer_size ∧
    s'.pcm.pcm_salign = s.pcm.pcm_salign ∧
    (s'.pcm.buf_pos = s.pcm.buf_pos ∨
      (s.pcm.pcm_buffer_size ≠ 0 ∧ s'.pcm.buf_pos < s.pcm.pcm_buffer_size)) ∧
    (s.pcm.last_drift = 0 → s'.pcm.last_drift = 0) := by
  obtain ⟨s1, r, w, hu, _, _, hcase⟩ := vsnd_timer_elapsed_inv h
  obtain ⟨_, _, hupd⟩ := vsnd_pos_update_inv hu
  have h1 : s1.pcm.pcm_buffer_size = s.pcm.pcm_buffer_size ∧
      s1.pcm.pcm_salign = s.pcm.pcm_salign ∧
      (s1.pcm.buf_pos = s.pcm.buf_pos ∨
        (s.pcm.pcm_buffer_size ≠ 0 ∧ s1.pcm.buf_pos < s.pcm.pcm_buffer_size)) ∧
      (s.pcm.last_drift = 0 → s1.pcm.last_drift = 0) := by
    rcases hupd with ⟨_, hs, _⟩ | ⟨_, _, _, hs⟩ | ⟨_, _, hB, p2, b, hcalc, _, hs⟩
    · rw [hs]; exact ⟨rfl, rfl, Or.inl rfl, fun h0 => h0⟩
    · rw [hs]; exact ⟨rfl, rfl, Or.inl rfl, fun h0 => h0⟩
    · obtain ⟨f1, _, _, _, _, f6, _, _, _, f10⟩ := vsnd_pos_calc_frame hcalc
      rw [hs]
      exact ⟨f1, f6, Or.inr ⟨hB, Nat.mod_lt _ (Nat.pos_of_ne_zero hB)⟩, fun _ => f10⟩
  rcases hcase with ⟨_, hs'⟩ | ⟨_, p, ht, _, hs'⟩
  · rw [hs']; exact h1
  · obtain ⟨_, _, _, _, h5, h6, _, _, _, h10, _, h12, _⟩ := vsnd_timer_set_inv ht
    rw [hs']
    simp only [h5, h6, h10, h12]
    exact h1

theorem prepared_inv {K : Env} {runtime : snd_pcm_runtime} {s : State}
    (h : Prepared K runtime s) :
    s.pcm.pcm_salign ≠ 0 ∧
    (s.pcm.pcm_buffer_size ≠ 0 → s.pcm.buf_pos < s.pcm.pcm_buffer_size) := by
  induction h with
  | prepare hp =>
    obtain ⟨a1, _, _, a4⟩ := vsnd_prepare_inv hp
    rw [a4]
    exact ⟨prepare_salign_pos a1, fun hne => Nat.pos_of_ne_zero hne⟩
  | trigger _ _ ht ih =>
    obtain ⟨f1, f2, f3, _⟩ := trigger_frame ht
    rw [f1, f2, f3]
    exact ih
  | tick _ _ ht ih =>
    obtain ⟨f1, f2, f3, _⟩ := tick_frame ht
    rw [f1, f2]
    refine ⟨ih.1, fun hne => ?_⟩
    rcases f3 with f3 | ⟨_, f3⟩
    · rw [f3]; exact ih.2 hne
    · exact f3

/-- C6, counterexample. `vsnd_prepare` with 0 buffer frames succeeds and
stores `pcm_buffer_size = 0`; in the state it returns `buf_pos = 0` is not
below `pcm_buffer_size`. -/
theorem cursor_not_below_zero_buffer :
    vsnd_prepare (rt_default 0 512) s_opened = (s_prepared_no_buffer, 0) ∧
    Prepared K1000 (rt_default 0 512) s_prepared_no_buffer ∧
    ¬ (s_prepared_no_buffer.pcm.buf_pos < s_prepared_no_buffer.pcm.pcm_buffer_size) :=
  ⟨by rfl, @Prepared.prepare K1000 (rt_default 0 512) s_opened s_prepared_no_buffer (by rfl),
    by decide⟩

/-- C6, amended. In every state reached from a successful prepare through
trigger commands and callbacks, if the prepared `pcm_buffer_size` is not 0
then `buf_pos < pcm_buffer_size`; and when `frame_bits` is `8 * pcm_salign`
and `pcm_buffer_size` is a multiple of `pcm_salign`, `vsnd_pointer` returns
the frame offset `buf_pos / pcm_salign`, below `pcm_buffer_size / pcm_salign`. -/
theorem cursor_below_buffer_size (K : Env) (runtime : snd_pcm_runtime) (s : State)
    (h : Prepared K runtime s) (hB : s.pcm.pcm_buffer_size ≠ 0) :
    s.pcm.buf_pos < s.pcm.pcm_buffer_size ∧
    (runtime.frame_bits = 8 * s.pcm.pcm_salign → s.pcm.pcm_salign ∣ s.pcm.pcm_buffer_size →
      ∃ f, vsnd_pointer runtime s = .ok f ∧ f = s.pcm.buf_pos / s.pcm.pcm_salign ∧
        f < s.pcm.pcm_buffer_size / s.pcm.pcm_salign) := by
  obtain ⟨ha, hlt⟩ := prepared_inv h
  refine ⟨hlt hB, fun hfb hdvd => ?_⟩
  have hfb0 : runtime.frame_bits ≠ 0 := by omega
  refine ⟨s.pcm.buf_pos / s.pcm.pcm_salign, ?_, rfl, Nat.div_lt_div_of_lt_of_dvd hdvd (hlt hB)⟩
  unfold vsnd_pointer bytes_to_frames
  rw [if_neg hfb0, hfb, Nat.mul_comm 8 s.pcm.pcm_salign,
    Nat.mul_div_mul_right _ _ (by norm_num : 0 < 8)]

/-- C6, witness: the default stream 19 ticks after Start. -/
theorem cursor_below_buffer_size_witness :
    s_after19.pcm.buf_pos < s_after19.pcm.pcm_buffer_size ∧
    ((rt_default 2048 512).frame_bits = 8 * s_after19.pcm.pcm_salign →
      s_after19.pcm.pcm_salign ∣ s_after19.pcm.pcm_buffer_size →
      ∃ f, vsnd_pointer (rt_default 2048 512) s_after19 = .ok f ∧
        f = s_after19.pcm.buf_pos / s_after19.pcm.pcm_salign ∧
        f < s_after19.pcm.pcm_buffer_size / s_after19.pcm.pcm_salign) :=
  cursor_below_buffer_size K1000 (rt_default 2048 512) s_after19
    (@Prepared.tick K1000 (rt_default 2048 512) s_started s_after19 5019
      { writes := [{ fp := some 7, off := 0, size := 836, ret := 836 }], period_elapsed := false }
      (@Prepared.trigger K1000 (rt_default 2048 512) s_prepared s_started 5000
        SNDRV_PCM_TRIGGER_START 0
        (@Prepared.prepare K1000 (rt_default 2048 512) s_opened s_prepared (by rfl))
        (by norm_num) (by rfl))
      (by norm_num) (by rfl))
    (by decide)

theorem except_map_ok {α β : Type} {f : α → β} {x : Except Fault α} {b : β}
    (h : x.map f = .ok b) : ∃ a, x = .ok a ∧ f a = b := by
  cases x with
  | error e => simp [Except.map] at h
  | ok a =>
    simp only [Except.map, Except.ok.injEq] at h
    exact ⟨a, rfl, h⟩

theorem vsnd_timer_set_total {HZ : Nat} (jiffies : Nat) {p : vsnd_pcm}
    (hF : (p.pcm_period_size * HZ) % 4294967296 ≠ 0) (hbps : p.pcm_bps ≠ 0) :
    ∃ p', vsnd_timer_set HZ jiffies p = .ok p' := by
  unfold vsnd_timer_set
  simp only [hF, and_false, if_false, DIV_ROUND_UP]
  split_ifs <;> simp_all

theorem vsnd_timer_set_fault {HZ : Nat} (jiffies : Nat) {p : vsnd_pcm}
    (h : (p.pcm_period_size * HZ) % 4294967296 = 0 ∨ p.pcm_bps = 0) :
    vsnd_timer_set HZ jiffies p = .error .div_by_zero := by
  unfold vsnd_timer_set
  by_cases hF : (p.pcm_period_size * HZ) % 4294967296 = 0
  · simp [hF]
  · have hb : p.pcm_bps = 0 := h.resolve_left hF
    simp only [hF, and_false, if_false, DIV_ROUND_UP]
    split_ifs <;> simp_all

/-- C8, counterexample. Start on a stream that was opened but not prepared
(`pcm_period_size = 0`): `vsnd_timer_set` computes `irq_pos %= 0` and the
command does not return success. -/
theorem start_before_prepare_divides_by_zero :
    vsnd_trigger K1000 5000 SNDRV_PCM_TRIGGER_START s_opened = .error .div_by_zero := by
  rfl

/-- C8, amended. A command code that is none of Start, Stop, PAUSE_PUSH,
SUSPEND, PAUSE_RELEASE, RESUME makes `vsnd_trigger` return `-EINVAL` with the
whole state unchanged. Stop, PAUSE_PUSH and SUSPEND return 0 in every state.
Start, PAUSE_RELEASE and RESUME return 0 in every state in which
`pcm_period_size * HZ` (as `unsigned int`) and `pcm_bps` are not 0, and
otherwise divide by zero in `vsnd_timer_set`. -/
theorem trigger_command_results (K : Env) (now : Nat) (cmd : Int) (s : State) :
    (cmd ≠ SNDRV_PCM_TRIGGER_START → cmd ≠ SNDRV_PCM_TRIGGER_STOP →
      cmd ≠ SNDRV_PCM_TRIGGER_PAUSE_PUSH → cmd ≠ SNDRV_PCM_TRIGGER_SUSPEND →
      cmd ≠ SNDRV_PCM_TRIGGER_PAUSE_RELEASE → cmd ≠ SNDRV_PCM_TRIGGER_RESUME →
      vsnd_trigger K now cmd s = .ok (s, -EINVAL)) ∧
    (cmd = SNDRV_PCM_TRIGGER_STOP ∨ cmd = SNDRV_PCM_TRIGGER_PAUSE_PUSH ∨
        cmd = SNDRV_PCM_TRIGGER_SUSPEND →
      ∃ s', vsnd_trigger K now cmd s = .ok (s', 0)) ∧
    (cmd = SNDRV_PCM_TRIGGER_START ∨ cmd = SNDRV_PCM_TRIGGER_PAUSE_RELEASE ∨
        cmd = SNDRV_PCM_TRIGGER_RESUME →
      ((s.pcm.pcm_period_size * K.HZ) % 4294967296 ≠ 0 ∧ s.pcm.pcm_bps ≠ 0 →
        ∃ s', vsnd_trigger K now cmd s = .ok (s', 0)) ∧
      ((s.pcm.pcm_period_size * K.HZ) % 4294967296 = 0 ∨ s.pcm.pcm_bps = 0 →
        vsnd_trigger K now cmd s = .error .div_by_zero)) := by
  refine ⟨?_, ?_, ?_⟩
  · intro h1 h2 h3 h4 h5 h6
    unfold vsnd_trigger
    simp only [h1, h2, h3, h4, h5, h6, or_self, if_false]
  · rintro (h | h | h)
    · subst h; exact ⟨_, vsnd_trigger_stop K now s⟩
    · exact ⟨_, vsnd_trigger_pause K now cmd s (Or.inl h)⟩
    · exact ⟨_, vsnd_trigger_pause K now cmd s (Or.inr h)⟩
  · intro hc
    have key : ∃ lj dr v, vsnd_trigger K now cmd s =
        match vsnd_timer_set K.HZ now { s.pcm with last_jiffies := lj, last_drift := dr } with
        | .error f => .error f
        | .ok p2 => .ok (State.mk v p2, 0) := by
      rcases hc with h | h | h
      · subst h; exact ⟨now, 0, _, vsnd_trigger_start K now s⟩
      · subst h; exact ⟨now, s.pcm.last_drift, _, rfl⟩
      · subst h; exact ⟨now, s.pcm.last_drift, _, rfl⟩
    obtain ⟨lj, dr, v, hk⟩ := key
    constructor
    · rintro ⟨hF, hb⟩
      obtain ⟨p', hp'⟩ := vsnd_timer_set_total now
        (p := { s.pcm with last_jiffies := lj, last_drift := dr }) hF hb
      rw [hk, hp']
      exact ⟨_, rfl⟩
    · intro hz
      rw [hk, vsnd_timer_set_fault now
        (p := { s.pcm with last_jiffies := lj, last_drift := dr }) hz]

/-- C8, witness: the command code 7 (DRAIN) on the default started stream,
and the recognised commands on it. -/
theorem trigger_command_results_witness :
    vsnd_trigger K1000 5030 7 s_started = .ok (s_started, -EINVAL) ∧
    (∃ s', vsnd_trigger K1000 5030 SNDRV_PCM_TRIGGER_STOP s_started = .ok (s', 0)) ∧
    (∃ s', vsnd_trigger K1000 5030 SNDRV_PCM_TRIGGER_START s_started = .ok (s', 0)) :=
  ⟨(trigger_command_results K1000 5030 7 s_started).1 (by decide) (by decide) (by decide)
      (by decide) (by decide) (by decide),
   (trigger_command_results K1000 5030 SNDRV_PCM_TRIGGER_STOP s_started).2.1 (Or.inl rfl),
   ((trigger_command_results K1000 5030 SNDRV_PCM_TRIGGER_START s_started).2.2 (Or.inl rfl)).1
      ⟨by decide, by decide⟩⟩

/-- C9. When the rate is 0, or more generally when the computed `salign` or
`bits_per_secs` is not positive, `vsnd_prepare` returns `-EINVAL` and only
cancels the timer: `pcm_buffer_size`, `pcm_period_size`, `pcm_salign`,
`pcm_bps`, `buf_pos` and `irq_pos` keep their values. -/
theorem prepare_invalid_keeps_geometry (runtime : snd_pcm_runtime) (s : State)
    (h : runtime.rate = 0 ∨ prepare_salign runtime ≤ 0 ∨ prepare_bits_per_secs runtime ≤ 0) :
    vsnd_prepare runtime s = ({ s with pcm := vsnd_timer_delete s.pcm true }, -EINVAL) ∧
    (vsnd_prepare runtime s).1.pcm.pcm_buffer_size = s.pcm.pcm_buffer_size ∧
    (vsnd_prepare runtime s).1.pcm.pcm_period_size = s.pcm.pcm_period_size ∧
    (vsnd_prepare runtime s).1.pcm.pcm_salign = s.pcm.pcm_salign ∧
    (vsnd_prepare runtime s).1.pcm.pcm_bps = s.pcm.pcm_bps ∧
    (vsnd_prepare runtime s).1.pcm.buf_pos = s.pcm.buf_pos ∧
    (vsnd_prepare runtime s).1.pcm.irq_pos = s.pcm.irq_pos := by
  have hc : prepare_salign runtime ≤ 0 ∨ prepare_bits_per_secs runtime ≤ 0 := by
    rcases h with h | h | h
    · right
      unfold prepare_bits_per_secs
      rw [h]
      simp [to_int]
    · exact Or.inl h
    · exact Or.inr h
  have he : vsnd_prepare runtime s = ({ s with pcm := vsnd_timer_delete s.pcm true }, -EINVAL) := by
    unfold vsnd_prepare
    simp only [hc, if_true]
  rw [he]
  refine ⟨rfl, ?_, ?_, ?_, ?_, ?_, ?_⟩ <;> simp [vsnd_timer_delete]

/-- C9, witness: prepare with rate 0 on the default started stream. -/
theorem prepare_invalid_keeps_geometry_witness :
    vsnd_prepare { rt_default 2048 512 with rate := 0 } s_started
      = ({ s_started with pcm := vsnd_timer_delete s_started.pcm true }, -EINVAL) ∧
    (vsnd_prepare { rt_default 2048 512 with rate := 0 } s_started).1.pcm.pcm_buffer_size
      = s_started.pcm.pcm_buffer_size ∧
    (vsnd_prepare { rt_default 2048 512 with rate := 0 } s_started).1.pcm.pcm_period_size
      = s_started.pcm.pcm_period_size ∧
    (vsnd_prepare { rt_default 2048 512 with rate := 0 } s_started).1.pcm.pcm_salign
      = s_started.pcm.pcm_salign ∧
    (vsnd_prepare { rt_default 2048 512 with rate := 0 } s_started).1.pcm.pcm_bps
      = s_started.pcm.pcm_bps ∧
    (vsnd_prepare { rt_default 2048 512 with rate := 0 } s_started).1.pcm.buf_pos
      = s_started.pcm.buf_pos ∧
    (vsnd_prepare { rt_default 2048 512 with rate := 0 } s_started).1.pcm.irq_pos
      = s_started.pcm.irq_pos :=
  prepare_invalid_keeps_geometry { rt_default 2048 512 with rate := 0 } s_started (Or.inl rfl)

theorem vsnd_prepare_drift (runtime : snd_pcm_runtime) (s : State) :
    (vsnd_prepare runtime s).1.pcm.last_drift = s.pcm.last_drift := by
  unfold vsnd_prepare
  simp only []
  split_ifs <;> simp [vsnd_timer_delete]

/-- In every state reachable from open `last_drift` is 0. -/
theorem reach_drift_zero {K : Env} {s : State} (h : Reach K s) : s.pcm.last_drift = 0 := by
  induction h with
  | opened dev fifo_fp => rfl
  | prepare runtime _ ih => rw [vsnd_prepare_drift]; exact ih
  | trigger _ _ ht ih => exact (trigger_frame ht).2.2.2 ih
  | tick _ _ ht ih => exact (tick_frame ht).2.2.2 ih

theorem ceil_div_bounds {n b : Nat} (hb : 0 < b) :
    n ≤ (n + b - 1) / b * b ∧ (n + b - 1) / b * b < n + b := by
  have h1 := Nat.div_add_mod (n + b - 1) b
  have h2 := Nat.mod_lt (n + b - 1) hb
  rw [Nat.mul_comm] at h1
  constructor <;> omega

/-- C11, counterexample. The default stream right after Start (`irq_pos = 0`,
`pcm_period_size * HZ = 1024000`, `pcm_bps = 44100`): the timer is armed
`d = 24` ticks ahead, and `0 + 24 * 44100 = 1058400` lies after the period
boundary 1024000, not on or before it. -/
theorem timer_lands_after_boundary :
    vsnd_timer_set 1000 5000 { s_prepared.pcm with last_jiffies := 5000 } = .ok s_started.pcm ∧
    s_started.pcm.timer = { pending := true, expires := 5000 + 24 } ∧
    ¬ (s_started.pcm.irq_pos + 24 * s_started.pcm.pcm_bps
        ≤ s_started.pcm.pcm_period_size * 1000) := by
  refine ⟨by rfl, by rfl, by decide⟩

/-- C11, amended. For every stream state with `pcm_bps > 0` and
`pcm_period_size * HZ` (as `unsigned int`) not 0, `vsnd_timer_set` returns,
leaves `irq_pos` reduced modulo `pcm_period_size * HZ` and arms the timer `d`
ticks ahead, where `d = ceil((pcm_period_size * HZ - irq_pos) / pcm_bps)` is the
least tick count that reaches the next period boundary: the tick lands on or
after the boundary, `irq_pos + d * pcm_bps >= pcm_period_size * HZ`, and one
tick earlier would be before it, `irq_pos + d * pcm_bps < pcm_period_size * HZ
+ pcm_bps`. -/
theorem timer_lands_on_or_after_boundary (HZ jiffies : Nat) (p : vsnd_pcm)
    (hF : (p.pcm_period_size * HZ) % 4294967296 ≠ 0) (hb : p.pcm_bps ≠ 0)
    (hb32 : p.pcm_bps < 4294967296) :
    ∃ p' d, vsnd_timer_set HZ jiffies p = .ok p' ∧
      p'.irq_pos = p.irq_pos % ((p.pcm_period_size * HZ) % 4294967296) ∧
      p'.timer = { pending := true, expires := (jiffies + d) % 18446744073709551616 } ∧
      (p.pcm_period_size * HZ) % 4294967296 ≤ p'.irq_pos + d * p.pcm_bps ∧
      p'.irq_pos + d * p.pcm_bps < (p.pcm_period_size * HZ) % 4294967296 + p.pcm_bps := by
  have hFlt : (p.pcm_period_size * HZ) % 4294967296 < 4294967296 := Nat.mod_lt _ (by norm_num)
  have hbpos : 0 < p.pcm_bps := Nat.pos_of_ne_zero hb
  generalize hFdef : (p.pcm_period_size * HZ) % 4294967296 = F at hF hFlt ⊢
  have hmod : p.irq_pos % F < F := Nat.mod_lt _ (Nat.pos_of_ne_zero hF)
  have key : ∀ i : Nat, i < F →
      ((F + 4294967296 - i) % 4294967296 + p.pcm_bps - 1) % 18446744073709551616 / p.pcm_bps
        = (F - i + p.pcm_bps - 1) / p.pcm_bps := by
    intro i hi
    have h1 : (F + 4294967296 - i) % 4294967296 = F - i := by omega
    rw [h1, Nat.mod_eq_of_lt (by omega)]
  have hcb := ceil_div_bounds (n := F - p.irq_pos % F) hbpos
  have hset : vsnd_timer_set HZ jiffies p =
      .ok { p with
            period_size_frac := F
            irq_pos := p.irq_pos % F
            period_update_pending := if F ≤ p.irq_pos then true else p.period_update_pending
            timer := { pending := true
                       expires := (jiffies + (F - p.irq_pos % F + p.pcm_bps - 1) / p.pcm_bps)
                                    % 18446744073709551616 } } := by
    unfold vsnd_timer_set
    simp only [hFdef, hF, and_false, if_false, DIV_ROUND_UP, hb]
    by_cases hc : F ≤ p.irq_pos
    · simp only [hc, if_true, key _ hmod, mod_timer]
      rw [if_neg hb]
    · have hi : p.irq_pos % F = p.irq_pos := Nat.mod_eq_of_lt (by omega)
      simp only [hc, if_false, key _ (by omega : p.irq_pos < F), mod_timer, hi]
      rw [if_neg hb]
  refine ⟨_, (F - p.irq_pos % F + p.pcm_bps - 1) / p.pcm_bps, hset, rfl, rfl, ?_, ?_⟩
  · have := hcb.1
    simp only []
    omega
  · have := hcb.2
    simp only []
    omega

/-- C11, witness: the default stream 19 ticks after Start. -/
theorem timer_lands_on_or_after_boundary_witness :
    ∃ p' d, vsnd_timer_set 1000 5019 s_after19.pcm = .ok p' ∧
      p'.irq_pos = s_after19.pcm.irq_pos % ((s_after19.pcm.pcm_period_size * 1000) % 4294967296) ∧
      p'.timer = { pending := true, expires := (5019 + d) % 18446744073709551616 } ∧
      (s_after19.pcm.pcm_period_size * 1000) % 4294967296
        ≤ p'.irq_pos + d * s_after19.pcm.pcm_bps ∧
      p'.irq_pos + d * s_after19.pcm.pcm_bps
        < (s_after19.pcm.pcm_period_size * 1000) % 4294967296 + s_after19.pcm.pcm_bps :=
  timer_lands_on_or_after_boundary 1000 5019 s_after19.pcm (by decide) (by decide) (by decide)

/-- C12, counterexample. Closing the running default stream leaves
`running = 1`: the trigger state machine is not in Stopped. -/
theorem close_leaves_running_flag :
    s_started.vsnd.running = true ∧ (vsnd_close s_started).1.vsnd.running = true ∧
    (vsnd_close s_started).1.vsnd.fifo_fp = none ∧
    (vsnd_close s_started).1.pcm.timer.pending = false := by
  refine ⟨by rfl, by rfl, by rfl, by rfl⟩

/-- C12, amended. In every stream state `vsnd_close` returns 0, leaves the
timer cancelled and the sink handle released (`fifo_fp = NULL`), and leaves
`running` and `paused` as they were: the state machine is in Stopped after
close exactly when both flags were 0 before. -/
theorem close_cancels_timer_and_releases_sink (s : State) :
    (vsnd_close s).2 = 0 ∧
    (vsnd_close s).1.pcm.timer.pending = false ∧
    (vsnd_close s).1.vsnd.fifo_fp = none ∧
    (vsnd_close s).1.vsnd.running = s.vsnd.running ∧
    (vsnd_close s).1.vsnd.paused = s.vsnd.paused := by
  unfold vsnd_close
  simp only []
  cases h : s.vsnd.fifo_fp with
  | none => simp [vsnd_timer_delete, h]
  | some x => simp [vsnd_timer_delete]

/-- C13, counterexample. On the default started stream (`irq_pos = 0`,
`pcm_period_size * HZ = 1024000`) an elapsed count of 100000 ticks makes
`delta * pcm_bps` wrap 32 bits: `vsnd_pos_calc` returns 115032 bytes and
`irq_pos = 344704`, where the steps of the claim give 4410000 bytes and
`irq_pos = 656000`. -/
theorem pos_calc_wraps_on_late_tick :
    (vsnd_pos_calc 1000 s_started.pcm 100000).map (fun r => (r.2, r.1.irq_pos))
      = .ok (115032, 344704) ∧
    byte_pos 1000 2 (0 + 100000 * 44100) - byte_pos 1000 2 0 = 4410000 ∧
    (0 + 100000 * 44100) % (1024 * 1000) = 656000 := by
  refine ⟨by rfl, by rfl, by rfl⟩

/-- C13, amended. One call of `vsnd_pos_calc` without 32-bit wrap: in every
state with `HZ` and `pcm_salign` not 0, `period_size_frac` equal to
`pcm_period_size * HZ`, `irq_pos` below it and `irq_pos + e * pcm_bps < 2^32`,
the call returns `d = align(floor((irq_pos + e * pcm_bps) / HZ)) -
align(floor(irq_pos / HZ))`, minus `last_drift` when `d >= last_drift`, sets
`last_drift` to 0, sets `irq_pos` to `(irq_pos + e * pcm_bps) mod
(pcm_period_size * HZ)`, and sets `period_update_pending` exactly when
`irq_pos + e * pcm_bps >= pcm_period_size * HZ`, leaving it as it was
otherwise. -/
theorem pos_calc_steps_no_wrap (HZ : Nat) (p : vsnd_pcm) (e : Nat) (hHZ : HZ ≠ 0)
    (ha : p.pcm_salign ≠ 0) (hfrac : p.period_size_frac = p.pcm_period_size * HZ)
    (hirq : p.irq_pos < p.pcm_period_size * HZ)
    (hw : p.irq_pos + e * p.pcm_bps < 4294967296) :
    vsnd_pos_calc HZ p e =
      .ok ({ p with irq_pos := (p.irq_pos + e * p.pcm_bps) % (p.pcm_period_size * HZ)
                    last_drift := 0
                    period_update_pending :=
                      if p.pcm_period_size * HZ ≤ p.irq_pos + e * p.pcm_bps then true
                      else p.period_update_pending },
           if byte_pos HZ p.pcm_salign (p.irq_pos + e * p.pcm_bps)
                - byte_pos HZ p.pcm_salign p.irq_pos ≥ p.last_drift
           then byte_pos HZ p.pcm_salign (p.irq_pos + e * p.pcm_bps)
                - byte_pos HZ p.pcm_salign p.irq_pos - p.last_drift
           else byte_pos HZ p.pcm_salign (p.irq_pos + e * p.pcm_bps)
                - byte_pos HZ p.pcm_salign p.irq_pos) := by
  have h1 : (e * p.pcm_bps) % 4294967296 = e * p.pcm_bps := Nat.mod_eq_of_lt (by omega)
  have h2 : (p.irq_pos + e * p.pcm_bps) % 4294967296 = p.irq_pos + e * p.pcm_bps :=
    Nat.mod_eq_of_lt hw
  have hm := byte_pos_mono HZ p.pcm_salign (Nat.le_add_right p.irq_pos (e * p.pcm_bps))
  have hl := byte_pos_le HZ p.pcm_salign (p.irq_pos + e * p.pcm_bps)
  have hl2 : (p.irq_pos + e * p.pcm_bps) / HZ ≤ p.irq_pos + e * p.pcm_bps := Nat.div_le_self _ _
  have h3 : (byte_pos HZ p.pcm_salign (p.irq_pos + e * p.pcm_bps) + 4294967296
      - byte_pos HZ p.pcm_salign p.irq_pos) % 4294967296
      = byte_pos HZ p.pcm_salign (p.irq_pos + e * p.pcm_bps) - byte_pos HZ p.pcm_salign p.irq_pos := by
    omega
  have hFne : p.pcm_period_size * HZ ≠ 0 := by omega
  unfold vsnd_pos_calc
  rw [byte_pos_calc_ok hHZ ha]
  simp only [h1, h2]
  rw [byte_pos_calc_ok hHZ (by simpa using ha)]
  simp only [h3, hfrac, ge_iff_le]
  by_cases hc : p.pcm_period_size * HZ ≤ p.irq_pos + e * p.pcm_bps
  · simp only [hc, if_true, hFne, if_false]
  · have : (p.irq_pos + e * p.pcm_bps) % (p.pcm_period_size * HZ) = p.irq_pos + e * p.pcm_bps :=
      Nat.mod_eq_of_lt (by omega)
    simp only [hc, if_false, this]

/-- C13, witness: the default stream 19 ticks after Start, 5 more ticks. -/
theorem pos_calc_steps_no_wrap_witness :
    vsnd_pos_calc 1000 s_after19.pcm 5 =
      .ok ({ s_after19.pcm with
               irq_pos := (s_after19.pcm.irq_pos + 5 * s_after19.pcm.pcm_bps)
                            % (s_after19.pcm.pcm_period_size * 1000)
               last_drift := 0
               period_update_pending :=
                 if s_after19.pcm.pcm_period_size * 1000
                      ≤ s_after19.pcm.irq_pos + 5 * s_after19.pcm.pcm_bps then true
                 else s_after19.pcm.period_update_pending },
           if byte_pos 1000 s_after19.pcm.pcm_salign
                  (s_after19.pcm.irq_pos + 5 * s_after19.pcm.pcm_bps)
                - byte_pos 1000 s_after19.pcm.pcm_salign s_after19.pcm.irq_pos
                ≥ s_after19.pcm.last_drift
           then byte_pos 1000 s_after19.pcm.pcm_salign
                  (s_after19.pcm.irq_pos + 5 * s_after19.pcm.pcm_bps)
                - byte_pos 1000 s_after19.pcm.pcm_salign s_after19.pcm.irq_pos
                - s_after19.pcm.last_drift
           else byte_pos 1000 s_after19.pcm.pcm_salign
                  (s_after19.pcm.irq_pos + 5 * s_after19.pcm.pcm_bps)
                - byte_pos 1000 s_after19.pcm.pcm_salign s_after19.pcm.irq_pos) :=
  pos_calc_steps_no_wrap 1000 s_after19.pcm 5 (by decide) (by decide) (by rfl) (by decide)
    (by decide)

/-- C15. In every state reached from a successful prepare followed by a
successful Start through trigger commands and callbacks,
`irq_pos < pcm_period_size * HZ`. -/
theorem scaled_position_in_range (K : Env) (s : State) (h : Started K s) :
    s.pcm.irq_pos < s.pcm.pcm_period_size * K.HZ := by
  have inv := started_inv h
  have h1 := inv.irq
  rw [inv.frac] at h1
  exact Nat.lt_of_lt_of_le h1 (Nat.mod_le _ _)

/-- C15, witness: the default stream 19 ticks after Start. -/
theorem scaled_position_in_range_witness :
    s_after19.pcm.irq_pos < s_after19.pcm.pcm_period_size * K1000.HZ :=
  scaled_position_in_range K1000 s_after19 started_s_after19

theorem reach_s_after19 : Reach K1000 s_after19 :=
  @Reach.tick K1000 s_started s_after19 5019
    { writes := [{ fp := some 7, off := 0, size := 836, ret := 836 }], period_elapsed := false }
    (@Reach.trigger K1000 s_prepared s_started 5000 SNDRV_PCM_TRIGGER_START 0
      (@Reach.prepare K1000 s_opened (rt_default 2048 512) (Reach.opened dev_probe 7))
      (by norm_num) (by rfl))
    (by norm_num) (by rfl)

/-- C16. In every state reachable from open through prepare, trigger commands
and callbacks `last_drift` is 0, so the drift subtraction of `vsnd_pos_calc`
changes nothing: the call returns exactly the new byte position minus the
previous one (as `unsigned int`), and leaves `last_drift` at 0. -/
theorem drift_correction_inert (K : Env) (s : State) (h : Reach K s) :
    s.pcm.last_drift = 0 ∧
    ∀ e p b, vsnd_pos_calc K.HZ s.pcm e = .ok (p, b) →
      ∃ prev cur, byte_pos_calc K.HZ s.pcm s.pcm.irq_pos = .ok prev ∧
        byte_pos_calc K.HZ s.pcm
          ((s.pcm.irq_pos + (e * s.pcm.pcm_bps) % 4294967296) % 4294967296) = .ok cur ∧
        b = (cur + 4294967296 - prev) % 4294967296 ∧ p.last_drift = 0 := by
  have hd := reach_drift_zero h
  refine ⟨hd, fun e p b hcalc => ?_⟩
  obtain ⟨_, _, _, _, hHZ, ha⟩ := vsnd_pos_calc_shape hcalc
  obtain ⟨_, _, _, _, _, _, _, _, _, f10⟩ := vsnd_pos_calc_frame hcalc
  refine ⟨_, _, byte_pos_calc_ok hHZ ha _, byte_pos_calc_ok hHZ ha _, ?_, f10⟩
  unfold vsnd_pos_calc at hcalc
  rw [byte_pos_calc_ok hHZ ha] at hcalc
  simp only [] at hcalc
  rw [byte_pos_calc_ok hHZ (by simpa using ha)] at hcalc
  simp only [hd, ge_iff_le, Nat.zero_le, if_true, Nat.sub_zero] at hcalc
  split_ifs at hcalc
  all_goals
    simp only [Except.ok.injEq, Prod.mk.injEq] at hcalc
    exact hcalc.2.symm

/-- C16, witness: the default stream 19 ticks after Start. -/
theorem drift_correction_inert_witness :
    s_after19.pcm.last_drift = 0 ∧
    ∀ e p b, vsnd_pos_calc K1000.HZ s_after19.pcm e = .ok (p, b) →
      ∃ prev cur, byte_pos_calc K1000.HZ s_after19.pcm s_after19.pcm.irq_pos = .ok prev ∧
        byte_pos_calc K1000.HZ s_after19.pcm
          ((s_after19.pcm.irq_pos + (e * s_after19.pcm.pcm_bps) % 4294967296) % 4294967296)
            = .ok cur ∧
        b = (cur + 4294967296 - prev) % 4294967296 ∧ p.last_drift = 0 :=
  drift_correction_inert K1000 s_after19 reach_s_after19

theorem vsnd_pos_update_total {K : Env} (now : Nat) {s : State} (hHZ : K.HZ ≠ 0)
    (ha : s.pcm.pcm_salign ≠ 0) (hfrac : s.pcm.period_size_frac ≠ 0)
    (hB : s.pcm.pcm_buffer_size ≠ 0) (hB32 : s.pcm.pcm_buffer_size < 4294967296)
    (hbuf : s.pcm.buf_pos < s.pcm.pcm_buffer_size) :
    ∃ r, vsnd_pos_update K now s = .ok r := by
  by_cases hr : xor s.vsnd.running s.vsnd.paused = true
  · by_cases he : elapsed_ticks now s = 0
    · exact ⟨_, vsnd_pos_update_zero K now s hr he⟩
    · obtain ⟨p, b, hcalc⟩ := @vsnd_pos_calc_total K.HZ
        { s.pcm with last_jiffies :=
            (s.pcm.last_jiffies + elapsed_ticks now s) % 18446744073709551616 }
        (elapsed_ticks now s) hHZ ha hfrac
      obtain ⟨_, _, _, hb32, _, _⟩ := vsnd_pos_calc_shape hcalc
      obtain ⟨f1, f2, _⟩ := vsnd_pos_calc_frame hcalc
      simp only [] at f1 f2
      have hBpos : 0 < s.pcm.pcm_buffer_size := Nat.pos_of_ne_zero hB
      have hfuel : (s.pcm.buf_pos + b) / s.pcm.pcm_buffer_size + 1
          ≤ 4294967296 / s.pcm.pcm_buffer_size + 3 := by
        have h1 : (s.pcm.buf_pos + b) / s.pcm.pcm_buffer_size
            ≤ (s.pcm.pcm_buffer_size + 4294967296) / s.pcm.pcm_buffer_size :=
          Nat.div_le_div_right (Nat.add_le_add (Nat.le_of_lt hbuf) (Nat.le_of_lt hb32))
        rw [Nat.add_div_left _ hBpos] at h1
        exact Nat.add_le_add_right (Nat.le_succ_of_le h1) 1
      obtain ⟨log, hloop, _⟩ := drain_loop_ok (K.kernel_write now) s.vsnd.fifo_fp hBpos hB32
        _ _ _ [] hbuf hb32 hfuel
      have hu := vsnd_pos_update_run K now s hr he
      rw [hcalc] at hu
      simp only [f1, f2, hloop, hB, if_false] at hu
      exact ⟨_, hu⟩
  · have hr' : xor s.vsnd.running s.vsnd.paused = false := by simpa using hr
    exact ⟨_, vsnd_pos_update_idle K now s hr'⟩

theorem vsnd_pos_calc_error {HZ : Nat} {p : vsnd_pcm} {e : Nat} {f : Fault}
    (h : vsnd_pos_calc HZ p e = .error f) : f = .div_by_zero := by
  unfold vsnd_pos_calc at h
  by_cases hHZ : HZ = 0
  · simp [byte_pos_calc, hHZ] at h
    exact h.symm
  by_cases ha : p.pcm_salign = 0
  · simp [byte_pos_calc, hHZ, ha] at h
    exact h.symm
  rw [byte_pos_calc_ok hHZ ha] at h
  simp only [] at h
  rw [byte_pos_calc_ok hHZ (by simpa using ha)] at h
  simp only [] at h
  split_ifs at h
  simp only [Except.error.injEq] at h
  exact h.symm

theorem vsnd_pos_update_frame {K : Env} {now : Nat} {s s1 : State} {r : Bool} {w : List kwrite}
    (h : vsnd_pos_update K now s = .ok (s1, r, w)) :
    s1.pcm.pcm_period_size = s.pcm.pcm_period_size ∧ s1.pcm.pcm_bps = s.pcm.pcm_bps := by
  obtain ⟨_, _, hcase⟩ := vsnd_pos_update_inv h
  rcases hcase with ⟨_, hs, _⟩ | ⟨_, _, _, hs⟩ | ⟨_, _, _, p2, b, hcalc, _, hs⟩
  · rw [hs]; exact ⟨rfl, rfl⟩
  · rw [hs]; exact ⟨rfl, rfl⟩
  · obtain ⟨_, _, _, f4, f5, _⟩ := vsnd_pos_calc_frame hcalc
    rw [hs]
    exact ⟨f4, f5⟩

/-- C17, counterexample. Two states with `pcm_salign`, `pcm_bps`,
`pcm_period_size`, `pcm_buffer_size` all positive and `buf_pos` below the
buffer size in which a remainder by zero is reached: the default stream after
prepare and before Start has `period_size_frac = 0`, which `vsnd_pos_calc`
uses as divisor; and with a period of `2^29` bytes and `HZ = 1000` the product
`pcm_period_size * HZ` wraps to 0, which `vsnd_timer_set` uses as divisor. -/
theorem positive_geometry_divides_by_zero :
    (0 < s_prepared.pcm.pcm_salign ∧ 0 < s_prepared.pcm.pcm_bps ∧
      0 < s_prepared.pcm.pcm_period_size ∧ 0 < s_prepared.pcm.pcm_buffer_size ∧
      s_prepared.pcm.buf_pos < s_prepared.pcm.pcm_buffer_size) ∧
    vsnd_pos_calc 1000 s_prepared.pcm 1 = .error .div_by_zero ∧
    (0 < pcm_huge_period.pcm_salign ∧ 0 < pcm_huge_period.pcm_bps ∧
      0 < pcm_huge_period.pcm_period_size ∧ 0 < pcm_huge_period.pcm_buffer_size ∧
      pcm_huge_period.buf_pos < pcm_huge_period.pcm_buffer_size) ∧
    vsnd_timer_set 1000 5000 pcm_huge_period = .error .div_by_zero := by
  refine ⟨by decide, by rfl, by decide, by rfl⟩

/-- C17, amended. Tick processing is total under the geometry precondition
completed by two conditions: in every state with `HZ`, `pcm_salign`, `pcm_bps`
and `pcm_buffer_size` not 0, `buf_pos < pcm_buffer_size`, `pcm_period_size * HZ`
not 0 as `unsigned int` and `period_size_frac` not 0 (as `vsnd_timer_set`
leaves it), for every elapsed count and every time `byte_pos_calc`,
`vsnd_pos_calc`, `vsnd_pos_update`, `vsnd_timer_set` and the whole callback
return: no division by zero, and the drain loop terminates. Conversely
`pcm_period_size = 0` makes `vsnd_timer_set` divide by zero, and
`pcm_buffer_size = 0` makes a running callback with a nonzero elapsed count
fail. -/
theorem tick_processing_total (K : Env) (s : State) (now e : Nat) :
    (K.HZ ≠ 0 → s.pcm.pcm_salign ≠ 0 → s.pcm.pcm_bps ≠ 0 →
      (s.pcm.pcm_period_size * K.HZ) % 4294967296 ≠ 0 → s.pcm.period_size_frac ≠ 0 →
      s.pcm.pcm_buffer_size ≠ 0 → s.pcm.pcm_buffer_size < 4294967296 →
      s.pcm.buf_pos < s.pcm.pcm_buffer_size →
      (∃ x, byte_pos_calc K.HZ s.pcm e = .ok x) ∧
      (∃ r, vsnd_pos_calc K.HZ s.pcm e = .ok r) ∧
      (∃ r, vsnd_pos_update K now s = .ok r) ∧
      (∃ p, vsnd_timer_set K.HZ now s.pcm = .ok p) ∧
      (∃ r, vsnd_timer_elapsed K now s = .ok r)) ∧
    (s.pcm.pcm_period_size = 0 → vsnd_timer_set K.HZ now s.pcm = .error .div_by_zero) ∧
    (s.pcm.pcm_buffer_size = 0 → xor s.vsnd.running s.vsnd.paused = true →
      elapsed_ticks now s ≠ 0 → vsnd_pos_update K now s = .error .div_by_zero) := by
  refine ⟨?_, ?_, ?_⟩
  · intro hHZ ha hb hF hfrac hB hB32 hbuf
    obtain ⟨r, hu⟩ := vsnd_pos_update_total now hHZ ha hfrac hB hB32 hbuf
    refine ⟨⟨_, byte_pos_calc_ok hHZ ha e⟩, ?_, ⟨r, hu⟩, vsnd_timer_set_total now hF hb, ?_⟩
    · obtain ⟨q, b, hq⟩ := vsnd_pos_calc_total e hHZ ha hfrac
      exact ⟨_, hq⟩
    · obtain ⟨s1, run, w⟩ := r
      obtain ⟨f1, f2⟩ := vsnd_pos_update_frame hu
      unfold vsnd_timer_elapsed
      rw [hu]
      cases run
      · exact ⟨_, rfl⟩
      · obtain ⟨p, hp⟩ := @vsnd_timer_set_total K.HZ now s1.pcm (by rw [f1]; exact hF)
          (by rw [f2]; exact hb)
        simp only [if_true, hp]
        split_ifs <;> exact ⟨_, rfl⟩
  · intro hP
    exact vsnd_timer_set_fault now (Or.inl (by rw [hP]; simp))
  · intro hB hr he
    rw [vsnd_pos_update_run K now s hr he]
    split
    · rename_i f hcalc
      rw [vsnd_pos_calc_error hcalc]
    · rename_i p2 b hcalc
      obtain ⟨f1, _⟩ := vsnd_pos_calc_frame hcalc
      simp only [] at f1
      rw [f1, hB]
      simp [drain_loop]

/-- C17, witness: the default started stream at jiffies 5019. -/
theorem tick_processing_total_witness :
    (∃ x, byte_pos_calc K1000.HZ s_started.pcm 19 = .ok x) ∧
    (∃ r, vsnd_pos_calc K1000.HZ s_started.pcm 19 = .ok r) ∧
    (∃ r, vsnd_pos_update K1000 5019 s_started = .ok r) ∧
    (∃ p, vsnd_timer_set K1000.HZ 5019 s_started.pcm = .ok p) ∧
    (∃ r, vsnd_timer_elapsed K1000 5019 s_started = .ok r) :=
  (tick_processing_total K1000 s_started 5019 19).1 (by decide) (by decide) (by decide)
    (by decide) (by decide) (by decide) (by decide) (by decide)

theorem dvd_align_down (a x : Nat) : a ∣ align_down a x := by
  rw [align_down_eq]
  exact Dvd.intro _ rfl

theorem vsnd_pos_calc_bytes {HZ : Nat} {p q : vsnd_pcm} {e b : Nat}
    (h : vsnd_pos_calc HZ p e = .ok (q, b)) (hd : p.last_drift = 0) :
    b = (byte_pos HZ p.pcm_salign ((p.irq_pos + (e * p.pcm_bps) % 4294967296) % 4294967296)
          + 4294967296 - byte_pos HZ p.pcm_salign p.irq_pos) % 4294967296 := by
  obtain ⟨_, _, _, _, hHZ, ha⟩ := vsnd_pos_calc_shape h
  unfold vsnd_pos_calc at h
  rw [byte_pos_calc_ok hHZ ha] at h
  simp only [] at h
  rw [byte_pos_calc_ok hHZ (by simpa using ha)] at h
  simp only [hd, ge_iff_le, Nat.zero_le, if_true, Nat.sub_zero] at h
  split_ifs at h
  all_goals
    simp only [Except.ok.injEq, Prod.mk.injEq] at h
    exact h.2.symm

theorem vsnd_pos_calc_aligned {HZ : Nat} {p q : vsnd_pcm} {e b : Nat}
    (h : vsnd_pos_calc HZ p e = .ok (q, b)) (hd : p.last_drift = 0)
    (hc : p.pcm_salign ∣ 4294967296 ∨ p.irq_pos + e * p.pcm_bps < 4294967296) :
    p.pcm_salign ∣ b := by
  rw [vsnd_pos_calc_bytes h hd]
  have d1 : p.pcm_salign ∣ byte_pos HZ p.pcm_salign p.irq_pos := dvd_align_down _ _
  rcases hc with hc | hc
  · have d2 : p.pcm_salign ∣
        byte_pos HZ p.pcm_salign ((p.irq_pos + (e * p.pcm_bps) % 4294967296) % 4294967296) :=
      dvd_align_down _ _
    exact (Nat.dvd_mod_iff hc).2 (Nat.dvd_sub' (Dvd.dvd.add d2 hc) d1)
  · have h1 : (e * p.pcm_bps) % 4294967296 = e * p.pcm_bps := Nat.mod_eq_of_lt (by omega)
    rw [h1, Nat.mod_eq_of_lt hc]
    have d2 : p.pcm_salign ∣ byte_pos HZ p.pcm_salign (p.irq_pos + e * p.pcm_bps) :=
      dvd_align_down _ _
    have hm := byte_pos_mono HZ p.pcm_salign (Nat.le_add_right p.irq_pos (e * p.pcm_bps))
    have hl := byte_pos_le HZ p.pcm_salign (p.irq_pos + e * p.pcm_bps)
    have hl2 : (p.irq_pos + e * p.pcm_bps) / HZ ≤ p.irq_pos + e * p.pcm_bps :=
      Nat.div_le_self _ _
    have h3 : (byte_pos HZ p.pcm_salign (p.irq_pos + e * p.pcm_bps) + 4294967296
        - byte_pos HZ p.pcm_salign p.irq_pos) % 4294967296
        = byte_pos HZ p.pcm_salign (p.irq_pos + e * p.pcm_bps)
            - byte_pos HZ p.pcm_salign p.irq_pos := by
      omega
    rw [h3]
    exact Nat.dvd_sub' d2 d1

/-- Where the timer callback leaves the cursor. -/
theorem tick_buf_pos {K : Env} {now : Nat} {s s' : State} {o : TickOut}
    (h : vsnd_timer_elapsed K now s = .ok (s', o)) :
    s'.pcm.buf_pos = s.pcm.buf_pos ∨
    ∃ q b, vsnd_pos_calc K.HZ s.pcm (elapsed_ticks now s) = .ok (q, b) ∧
      s'.pcm.buf_pos = ((s.pcm.buf_pos + b) % 4294967296) % s.pcm.pcm_buffer_size := by
  obtain ⟨s1, r, w, hu, _, _, hcase⟩ := vsnd_timer_elapsed_inv h
  obtain ⟨_, _, hupd⟩ := vsnd_pos_update_inv hu
  have h1 : s'.pcm.buf_pos = s1.pcm.buf_pos := by
    rcases hcase with ⟨_, hs'⟩ | ⟨_, p, ht, _, hs'⟩
    · rw [hs']
    · obtain ⟨_, _, _, _, _, h6, _⟩ := vsnd_timer_set_inv ht
      rw [hs']
      exact h6
  rw [h1]
  rcases hupd with ⟨_, hs, _⟩ | ⟨_, _, _, hs⟩ | ⟨_, _, _, p2, b, hcalc, _, hs⟩
  · left; rw [hs]
  · left; rw [hs]
  · right
    rw [vsnd_pos_calc_jiffies] at hcalc
    obtain ⟨⟨q, b'⟩, hq, hqe⟩ := except_map_ok hcalc
    simp only [Prod.mk.injEq] at hqe
    obtain ⟨_, hb⟩ := hqe
    subst hb
    exact ⟨q, b', hq, by rw [hs]⟩

theorem vsnd_prepare_buf_pos (runtime : snd_pcm_runtime) (s : State) :
    (vsnd_prepare runtime s).1.pcm.buf_pos = 0 ∨
    ((vsnd_prepare runtime s).1.pcm.buf_pos = s.pcm.buf_pos ∧
     (vsnd_prepare runtime s).1.pcm.pcm_salign = s.pcm.pcm_salign ∧
     (vsnd_prepare runtime s).1.pcm.pcm_buffer_size = s.pcm.pcm_buffer_size) := by
  unfold vsnd_prepare
  simp only []
  split_ifs
  · right; simp [vsnd_timer_delete]
  · left; rfl

/-- In every state reachable from open the cursor is a multiple of an
alignment that divides `2^32` and the buffer size. -/
theorem reach_aligned {K : Env} {s : State} (h : Reach K s) :
    s.pcm.pcm_salign ∣ 4294967296 → s.pcm.pcm_salign ∣ s.pcm.pcm_buffer_size →
    s.pcm.pcm_salign ∣ s.pcm.buf_pos := by
  induction h with
  | opened dev fifo_fp => intro _ _; exact dvd_zero _
  | prepare runtime _ ih =>
    rcases vsnd_prepare_buf_pos runtime _ with h0 | ⟨h1, h2, h3⟩
    · intro _ _; rw [h0]; exact dvd_zero _
    · rw [h1, h2, h3]; exact ih
  | trigger _ _ ht ih =>
    obtain ⟨f1, f2, f3, _⟩ := trigger_frame ht
    rw [f1, f2, f3]
    exact ih
  | tick hr _ ht ih =>
    obtain ⟨f1, f2, _, _⟩ := tick_frame ht
    rw [f1, f2]
    intro h32 hB
    rcases tick_buf_pos ht with hb | ⟨q, b, hcalc, hb⟩
    · rw [hb]; exact ih h32 hB
    · rw [hb]
      have hdb := vsnd_pos_calc_aligned hcalc (reach_drift_zero hr) (Or.inl h32)
      exact (Nat.dvd_mod_iff hB).2 ((Nat.dvd_mod_iff h32).2 (Dvd.dvd.add (ih h32 hB) hdb))

/-- C18, counterexample. A stream with sample alignment 3 (24-bit mono,
buffer 6144 bytes, a multiple of 3) is prepared, started and ticks once after
10 ticks. A callback 64918 ticks later wraps the 32-bit scaled position below
its previous value; `vsnd_pos_calc` returns 4294966654, which is not a multiple
of 3. -/
theorem byte_count_not_aligned_on_wrap :
    vsnd_prepare rt_s24 s_opened = (s_prepared_s24, 0) ∧
    vsnd_trigger K1000 5000 SNDRV_PCM_TRIGGER_START s_prepared_s24 = .ok (s_started_s24, 0) ∧
    (vsnd_timer_elapsed K1000 5010 s_started_s24).map Prod.fst = .ok s_after10_s24 ∧
    s_after10_s24.pcm.pcm_salign ∣ s_after10_s24.pcm.pcm_buffer_size ∧
    (vsnd_pos_calc 1000 s_after10_s24.pcm 64918).map Prod.snd = .ok 4294966654 ∧
    ¬ (s_after10_s24.pcm.pcm_salign ∣ 4294966654) := by
  refine ⟨by rfl, by rfl, by rfl, by decide, by rfl, by decide⟩

/-- C18, amended. In every state reachable from open, a byte count returned by
`vsnd_pos_calc` is a multiple of `pcm_salign` when `pcm_salign` divides `2^32`
(a power of two) or when the call does not wrap the 32-bit scaled position;
and when `pcm_salign` divides `2^32` and `pcm_buffer_size`, `buf_pos` is a
multiple of `pcm_salign`, so with `frame_bits = 8 * pcm_salign` `vsnd_pointer`
returns `buf_pos / pcm_salign` exactly, without remainder. -/
theorem alignment_preserved (K : Env) (s : State) (h : Reach K s) :
    (∀ e q b, vsnd_pos_calc K.HZ s.pcm e = .ok (q, b) →
      (s.pcm.pcm_salign ∣ 4294967296 ∨ s.pcm.irq_pos + e * s.pcm.pcm_bps < 4294967296) →
      s.pcm.pcm_salign ∣ b) ∧
    (s.pcm.pcm_salign ∣ 4294967296 → s.pcm.pcm_salign ∣ s.pcm.pcm_buffer_size →
      s.pcm.pcm_salign ∣ s.pcm.buf_pos ∧
      ∀ runtime : snd_pcm_runtime, runtime.frame_bits = 8 * s.pcm.pcm_salign →
        vsnd_pointer runtime s = .ok (s.pcm.buf_pos / s.pcm.pcm_salign) ∧
        s.pcm.buf_pos / s.pcm.pcm_salign * s.pcm.pcm_salign = s.pcm.buf_pos) := by
  refine ⟨fun e q b hcalc hc => vsnd_pos_calc_aligned hcalc (reach_drift_zero h) hc, ?_⟩
  intro h32 hB
  have hdvd := reach_aligned h h32 hB
  refine ⟨hdvd, fun runtime hfb => ⟨?_, Nat.div_mul_cancel hdvd⟩⟩
  have ha : s.pcm.pcm_salign ≠ 0 := by
    intro h0
    rw [h0] at h32
    simp at h32
  have hfb0 : runtime.frame_bits ≠ 0 := by omega
  unfold vsnd_pointer bytes_to_frames
  rw [if_neg hfb0, hfb, Nat.mul_comm 8 s.pcm.pcm_salign,
    Nat.mul_div_mul_right _ _ (by norm_num : 0 < 8)]

/-- C18, witness: the default stream (alignment 2) 19 ticks after Start. -/
theorem alignment_preserved_witness :
    (∀ e q b, vsnd_pos_calc K1000.HZ s_after19.pcm e = .ok (q, b) →
      (s_after19.pcm.pcm_salign ∣ 4294967296
        ∨ s_after19.pcm.irq_pos + e * s_after19.pcm.pcm_bps < 4294967296) →
      s_after19.pcm.pcm_salign ∣ b) ∧
    (s_after19.pcm.pcm_salign ∣ 4294967296 →
      s_after19.pcm.pcm_salign ∣ s_after19.pcm.pcm_buffer_size →
      s_after19.pcm.pcm_salign ∣ s_after19.pcm.buf_pos ∧
      ∀ runtime : snd_pcm_runtime, runtime.frame_bits = 8 * s_after19.pcm.pcm_salign →
        vsnd_pointer runtime s_after19 = .ok (s_after19.pcm.buf_pos / s_after19.pcm.pcm_salign) ∧
        s_after19.pcm.buf_pos / s_after19.pcm.pcm_salign * s_after19.pcm.pcm_salign
          = s_after19.pcm.buf_pos) :=
  alignment_preserved K1000 s_after19 reach_s_after19

end Vsnd
